import Mathlib

/-!
Verification of the DocVault ingestion / retrieval pipeline.

This file gives a shallow embedding of the document-processing worker
(`workers/shared/processing.ts`), the document routes (upload, delete),
the tag helpers (`workers/api/routes/tags.ts`), the search routes
(faceted / combined search) and the chat context retrieval
(`workers/api/routes/chat.ts`), together with theorems about the
embedded definitions.

Conventions of the embedding:
* Machine integers and floats that are only used for counting and
  comparisons are modelled as `Nat` / `Int`; `Math.floor(x * 0.75)` on a
  natural number becomes `3 * x / 4` and `Math.ceil(n / 0.75)` becomes
  `(4 * n + 2) / 3`, which agree with the double-precision source for
  all realistic sizes.
* Database identifiers produced by `crypto.randomUUID()` /
  `generateId()` are modelled by a fresh-id counter in the state.
* The chunk / vector identifier template string
  `document_id ++ "_" ++ i` is modelled by the pair `(document_id, i)`.
* External effects (R2, D1, Vectorize, the inference provider) are
  explicit: the stores are fields of the state, fallible external calls
  are oracle functions returning `Except`.  D1 `INSERT` statements are
  modelled with the primary-key checks of
  `workers/migrations/0001_initial_schema.sql`.
-/

namespace DocVault

/-- Whitespace characters matched by the JavaScript regex class used in
`chunkText` (`text.split(/\s+/)`): ECMAScript WhiteSpace (TAB, VT, FF,
SP, NBSP, ZWNBSP and the Zs space separators) plus the line
terminators LF, CR, LS and PS. -/
def isWsChar (c : Char) : Bool :=
  c = ' ' || c = '\t' || c = '\n' || c = '\r' || c.toNat = 11 || c.toNat = 12
    || c.toNat = 0xa0 || c.toNat = 0x1680
    || (0x2000 ≤ c.toNat && c.toNat ≤ 0x200a)
    || c.toNat = 0x2028 || c.toNat = 0x2029 || c.toNat = 0x202f
    || c.toNat = 0x205f || c.toNat = 0x3000 || c.toNat = 0xfeff

/-- Worker for `jsSplitWs`: splits a character list at maximal runs of
whitespace, with the JavaScript convention that leading/trailing
separators contribute empty pieces.  The state is `some acc` while a
piece is being accumulated (in reverse) and `none` while a whitespace
run is being skipped. -/
def jsSplitWsGo : List Char → Option (List Char) → List (List Char)
  | [], some acc => [acc.reverse]
  | [], none => [[]]
  | c :: rest, some acc =>
    if isWsChar c then acc.reverse :: jsSplitWsGo rest none
    else jsSplitWsGo rest (some (c :: acc))
  | c :: rest, none =>
    if isWsChar c then jsSplitWsGo rest none
    else jsSplitWsGo rest (some [c])

/-- Model of the JavaScript `text.split(/\s+/)` used by `chunkText`.
Note `"".split(/\s+/)` is `[""]`, not `[]`. -/
def jsSplitWs (s : String) : List String :=
  (jsSplitWsGo s.data (some [])).map (fun l => String.mk l)

/-- Clamp an index the way `Array.prototype.slice` does: negative
indices count from the end, large indices clamp to the length. -/
def jsSliceClamp (len : Nat) (i : Int) : Nat :=
  if i < 0 then ((len : Int) + i).toNat else min i.toNat len

/-- Model of `Array.prototype.slice(s, e)`. -/
def jsSlice {α : Type} (l : List α) (s e : Int) : List α :=
  (l.take (jsSliceClamp l.length e)).drop (jsSliceClamp l.length s)

/-- Model of `Array.prototype.join(' ')`. -/
def joinSpace : List String → String
  | [] => ""
  | [w] => w
  | w :: rest => w ++ " " ++ joinSpace rest

/-- One chunk produced by `chunkText`: the joined words and the
approximate token count. -/
structure Chunk where
  text : String
  tokenCount : Nat
deriving Repr, DecidableEq

/-- Model of `Math.floor(t * 0.75)` for a natural number `t`. -/
def wordsFloor (t : Nat) : Nat := 3 * t / 4

/-- Model of `Math.ceil(n / 0.75)` for a natural number `n`. -/
def tokenCeil (n : Nat) : Nat := (4 * n + 2) / 3

/-- The `while` loop of `chunkText`, with an explicit fuel bound on the
number of iterations (`words.length + 1` iterations always suffice for
the parameters the source uses, where the window advances by at least
one word per iteration).  `start` is an `Int` because the JavaScript
loop variable goes negative on short inputs before the break test. -/
def chunkTextGo (words : List String) (wpc ow : Nat) : Nat → Int → List Chunk
  | 0, _ => []
  | fuel + 1, start =>
    if start < (words.length : Int) then
      let e := min (start + (wpc : Int)) (words.length : Int)
      let chunkWords := jsSlice words start e
      let c : Chunk := ⟨joinSpace chunkWords, tokenCeil chunkWords.length⟩
      if e - (ow : Int) ≥ (words.length : Int) - (ow : Int) then [c]
      else c :: chunkTextGo words wpc ow fuel (e - (ow : Int))
    else []

/-- Model of `chunkText` from `workers/shared/processing.ts`. -/
def chunkText (text : String) (targetTokens overlapTokens : Nat) : List Chunk :=
  let words := jsSplitWs text
  chunkTextGo words (wordsFloor targetTokens) (wordsFloor overlapTokens)
    (words.length + 1) 0

/-- Row of the `documents` table. -/
structure DocumentRow where
  id : Nat
  workspace_id : String
  user_id : String
  title : String
  file_key : String
  text_key : Option String
  content_hash : String
  mime_type : String
  file_size_bytes : Nat
  status : String
  error_message : Option String
  created_at : Nat
  updated_at : Nat
deriving Repr, DecidableEq

/-- Row of the `tags` table. -/
structure TagRow where
  id : Nat
  workspace_id : String
  name : String
  category : Option String
  usage_count : Nat
  created_at : Nat
deriving Repr, DecidableEq

/-- Row of the `document_tags` junction table. -/
structure DocumentTagRow where
  document_id : Nat
  tag_id : Nat
  source : String
  confidence : Option Int
  created_at : Nat
deriving Repr, DecidableEq

/-- Row of the `document_chunks` table.  The source id string
`document_id ++ "_" ++ i` is modelled by the pair. -/
structure ChunkRow where
  id : Nat × Nat
  document_id : Nat
  chunk_index : Nat
  text_content : String
  token_count : Nat
deriving Repr, DecidableEq

/-- Metadata payload stored with each vector. -/
structure VectorMeta where
  document_id : Nat
  workspace_id : String
  chunk_index : Nat
  text : String
deriving Repr, DecidableEq

/-- One entry of the Vectorize index. -/
structure VectorEntry where
  id : Nat × Nat
  values : List Int
  metadata : VectorMeta
deriving Repr, DecidableEq

/-- The D1 relational state. -/
structure Db where
  documents : List DocumentRow
  tags : List TagRow
  document_tags : List DocumentTagRow
  document_chunks : List ChunkRow
deriving Repr, DecidableEq

/-- A processing-queue message (`ProcessingQueueMessage`). -/
structure ProcessingQueueMessage where
  type : String
  document_id : Nat
  workspace_id : String
  user_id : String
  file_key : String
  mime_type : String
deriving Repr, DecidableEq

/-- The full external state: D1, Vectorize, R2, the queue, and the
fresh-id counter modelling `generateId` / `crypto.randomUUID`. -/
structure St where
  db : Db
  vectors : List VectorEntry
  files : List (String × String)
  queue : List ProcessingQueueMessage
  nextId : Nat
deriving Repr, DecidableEq

/-- `env.FILES.get(key)`. -/
def filesGet (files : List (String × String)) (k : String) : Option String :=
  (files.find? (fun p => p.1 == k)).map (fun p => p.2)

/-- `env.FILES.put(key, value)` (R2 put overwrites). -/
def filesPut (files : List (String × String)) (k v : String) :
    List (String × String) :=
  if files.any (fun p => p.1 == k) then
    files.map (fun p => if p.1 == k then (k, v) else p)
  else files ++ [(k, v)]

/-- `env.FILES.delete(key)`. -/
def filesDelete (files : List (String × String)) (k : String) :
    List (String × String) :=
  files.filter (fun p => ¬ p.1 = k)

/-- The `UPDATE documents SET status = 'processing', updated_at = ?` step. -/
def setStatusProcessing (db : Db) (docId : Nat) (now : Nat) : Db :=
  { db with documents := db.documents.map (fun d =>
      if d.id = docId then { d with status := "processing", updated_at := now }
      else d) }

/-- The `UPDATE documents SET status = 'error', error_message = ?` step. -/
def setStatusError (db : Db) (docId : Nat) (msg : String) (now : Nat) : Db :=
  { db with documents := db.documents.map (fun d =>
      if d.id = docId then
        { d with status := "error", error_message := some msg, updated_at := now }
      else d) }

/-- The `UPDATE documents SET status = 'ready', text_key = ?` step. -/
def setStatusReady (db : Db) (docId : Nat) (textKey : String) (now : Nat) : Db :=
  { db with documents := db.documents.map (fun d =>
      if d.id = docId then
        { d with status := "ready", text_key := some textKey, updated_at := now }
      else d) }

/-- `INSERT INTO document_chunks`, with the `id TEXT PRIMARY KEY`
constraint of the schema. -/
def insertChunkRow (db : Db) (row : ChunkRow) : Except String Db :=
  if db.document_chunks.any (fun c => c.id = row.id) then
    Except.error "UNIQUE constraint failed: document_chunks.id"
  else
    Except.ok { db with document_chunks := db.document_chunks ++ [row] }

/-- `INSERT INTO document_tags`, with the schema's
`PRIMARY KEY (document_id, tag_id)`. -/
def insertDocumentTagRow (db : Db) (row : DocumentTagRow) : Except String Db :=
  if db.document_tags.any (fun r =>
      r.document_id = row.document_id ∧ r.tag_id = row.tag_id) then
    Except.error "UNIQUE constraint failed: document_tags.document_id, document_tags.tag_id"
  else
    Except.ok { db with document_tags := db.document_tags ++ [row] }

/-- `env.VECTORS.upsert` for a single entry: replace by id, else append. -/
def upsertVector (vs : List VectorEntry) (e : VectorEntry) : List VectorEntry :=
  if vs.any (fun v => v.id = e.id) then
    vs.map (fun v => if v.id = e.id then e else v)
  else vs ++ [e]

/-- One tag suggested by the LLM in `autoTag`. -/
structure TagSuggestion where
  name : String
  category : Option String
  confidence : Option Int
deriving Repr, DecidableEq

/-- Results of the external inference calls used by `extractText` /
`extractWithAI`: the unpdf text extraction and the vision model. -/
structure AiOracle where
  vision : Except String String
  pdf : Except String String
deriving Repr

/-- Outcomes of the external calls made by `processDocument` that the
pipeline does not control: per-chunk embedding calls, the auto-tag LLM
call, and the possibility that the final `ready` status write fails.
`now` stands for `new Date().toISOString()`. -/
structure PipelineOracle where
  ai : AiOracle
  embed : Nat → Except String (List Int)
  autoTag : Except String (List TagSuggestion)
  readyWrite : Except String Unit
  now : Nat

/-- The docx mime type constant from the source. -/
def docxMime : String :=
  "application/vnd.openxmlformats-officedocument.wordprocessingml.document"

/-- The xlsx mime type constant from the source. -/
def xlsxMime : String :=
  "application/vnd.openxmlformats-officedocument.spreadsheetml.sheet"

/-- Model of the JavaScript truthiness coercion `s || t` for strings. -/
def jsOrStr (s t : String) : String := if s = "" then t else s

/-- Character-level model of `String.prototype.startsWith`. -/
def strStartsWith (s pre : String) : Bool := pre.data.isPrefixOf s.data

/-- Character-level model of `String.prototype.toLowerCase` (ASCII). -/
def strToLower (s : String) : String := String.mk (s.data.map Char.toLower)

/-- Character-level model of `String.prototype.split` with a one-character
separator (used for `filename.split('.')`). -/
def splitOnChar (sep : Char) : List Char → List (List Char)
  | [] => [[]]
  | c :: rest =>
    match splitOnChar sep rest with
    | [] => [[]]
    | p :: ps => if c = sep then [] :: p :: ps else (c :: p) :: ps

/-- Model of `extractWithAI` from `workers/shared/processing.ts`: for
images calls the vision model (its own try/catch degrades any failure
to a placeholder), otherwise returns the pending placeholder. -/
def extractWithAI (mime : String) (ai : AiOracle) : String :=
  if strStartsWith mime "image/" then
    match ai.vision with
    | Except.ok d => jsOrStr d "[No text found in image]"
    | Except.error _ => "[Could not extract text from " ++ mime ++ "]"
  else "[Document type " ++ mime ++ " - text extraction pending]"

/-- Model of `extractText` from `workers/shared/processing.ts`: the mime
dispatch; the PDF branch falls back to `extractWithAI` when unpdf
fails; every branch degrades to a placeholder instead of throwing. -/
def extractText (content mime : String) (ai : AiOracle) : String :=
  if mime = "text/plain" then content
  else if mime = "application/pdf" then
    match ai.pdf with
    | Except.ok t => jsOrStr t "[PDF content could not be extracted]"
    | Except.error _ => extractWithAI mime ai
  else if strStartsWith mime "image/" then extractWithAI mime ai
  else if mime = docxMime then extractWithAI mime ai
  else if mime = xlsxMime then extractWithAI mime ai
  else "[Unsupported document type: " ++ mime ++ "]"

/-- Model of the local `extractText` of the variant worker entry point
(`src/unnamed/part_003`): only `text/plain` is decoded, everything else
becomes a placeholder. -/
def extractTextVariant (content mime : String) : String :=
  if mime = "text/plain" then content
  else "[Document content - " ++ mime ++ "]"

/-- The embed-upsert-insert loop over the chunks (`for (let i = 0; ...)`
in `processDocument`).  On an exception the state reached so far is
carried with the error. -/
def chunkLoop (docId : Nat) (wsId : String) (ora : PipelineOracle) :
    List Chunk → Nat → St → Except (String × St) St
  | [], _, st => Except.ok st
  | c :: rest, i, st =>
    match ora.embed i with
    | Except.error m => Except.error (m, st)
    | Except.ok emb =>
      let entry : VectorEntry := ⟨(docId, i), emb, ⟨docId, wsId, i, c.text.take 500⟩⟩
      let st1 : St := { st with vectors := upsertVector st.vectors entry }
      match insertChunkRow st1.db ⟨(docId, i), docId, i, c.text, c.tokenCount⟩ with
      | Except.error m => Except.error (m, st1)
      | Except.ok db2 => chunkLoop docId wsId ora rest (i + 1) { st1 with db := db2 }

/-- Model of `category || null` applied to a suggestion's category. -/
def jsCategory (c : Option String) : Option String :=
  match c with
  | some s => if s = "" then none else some s
  | none => none

/-- The find-or-create-and-associate loop over the suggested tags in
`processDocument`.  Note the `document_tags` insert is a raw `INSERT`
with no existence check. -/
def tagLoop (docId : Nat) (wsId : String) (now : Nat) :
    List TagSuggestion → St → Except (String × St) St
  | [], st => Except.ok st
  | t :: rest, st =>
    let found := st.db.tags.find? (fun r => r.workspace_id = wsId ∧ r.name = t.name)
    let idSt : Nat × St :=
      match found with
      | some r => (r.id, st)
      | none =>
        let tagId := st.nextId
        let row : TagRow := ⟨tagId, wsId, t.name, jsCategory t.category, 0, now⟩
        (tagId, { st with nextId := st.nextId + 1,
                          db := { st.db with tags := st.db.tags ++ [row] } })
    match insertDocumentTagRow idSt.2.db
        ⟨docId, idSt.1, "ai_suggested", t.confidence, now⟩ with
    | Except.error m => Except.error (m, idSt.2)
    | Except.ok db2 => tagLoop docId wsId now rest { idSt.2 with db := db2 }

/-- Model of `processDocument` from `workers/shared/processing.ts`: the
whole pipeline body runs inside one `try`; any exception is caught and
converted into an `error` status write carrying the exception's
message. -/
def processDocument (data : ProcessingQueueMessage) (ora : PipelineOracle)
    (st : St) : St :=
  let st0 : St := { st with db := setStatusProcessing st.db data.document_id ora.now }
  let attempt : Except (String × St) St :=
    match filesGet st0.files data.file_key with
    | none => Except.error ("File not found in storage", st0)
    | some content =>
      let text := extractText content data.mime_type ora.ai
      let textKey := "text/" ++ toString data.document_id ++ ".txt"
      let st1 : St := { st0 with files := filesPut st0.files textKey text }
      let chunks := chunkText text 512 64
      match chunkLoop data.document_id data.workspace_id ora chunks 0 st1 with
      | Except.error e => Except.error e
      | Except.ok st2 =>
        match ora.autoTag with
        | Except.error m => Except.error (m, st2)
        | Except.ok suggs =>
          match tagLoop data.document_id data.workspace_id ora.now suggs st2 with
          | Except.error e => Except.error e
          | Except.ok st3 =>
            match ora.readyWrite with
            | Except.error m => Except.error (m, st3)
            | Except.ok _ =>
              Except.ok { st3 with
                db := setStatusReady st3.db data.document_id textKey ora.now }
  match attempt with
  | Except.ok st' => st'
  | Except.error (m, st') =>
    { st' with db := setStatusError st'.db data.document_id m ora.now }

/-- Model of the local `processDocument` of the variant worker entry
point (`src/unnamed/part_003`): identical to the shared pipeline except
that it uses its own `extractText`. -/
def processDocumentVariant (data : ProcessingQueueMessage) (ora : PipelineOracle)
    (st : St) : St :=
  let st0 : St := { st with db := setStatusProcessing st.db data.document_id ora.now }
  let attempt : Except (String × St) St :=
    match filesGet st0.files data.file_key with
    | none => Except.error ("File not found in storage", st0)
    | some content =>
      let text := extractTextVariant content data.mime_type
      let textKey := "text/" ++ toString data.document_id ++ ".txt"
      let st1 : St := { st0 with files := filesPut st0.files textKey text }
      let chunks := chunkText text 512 64
      match chunkLoop data.document_id data.workspace_id ora chunks 0 st1 with
      | Except.error e => Except.error e
      | Except.ok st2 =>
        match ora.autoTag with
        | Except.error m => Except.error (m, st2)
        | Except.ok suggs =>
          match tagLoop data.document_id data.workspace_id ora.now suggs st2 with
          | Except.error e => Except.error e
          | Except.ok st3 =>
            match ora.readyWrite with
            | Except.error m => Except.error (m, st3)
            | Except.ok _ =>
              Except.ok { st3 with
                db := setStatusReady st3.db data.document_id textKey ora.now }
  match attempt with
  | Except.ok st' => st'
  | Except.error (m, st') =>
    { st' with db := setStatusError st'.db data.document_id m ora.now }

/-- The queue consumer of `workers/api/index.ts`: each
`document_uploaded` message in the batch is handed to the shared
`processDocument`. -/
def queueConsume (batch : List ProcessingQueueMessage) (ora : PipelineOracle)
    (st : St) : St :=
  match batch with
  | [] => st
  | msg :: rest =>
    let st1 := if msg.type = "document_uploaded" then processDocument msg ora st else st
    queueConsume rest ora st1

/-- The queue consumer of the variant worker entry point
(`src/unnamed/part_003`), which calls its local pipeline. -/
def queueConsumeVariant (batch : List ProcessingQueueMessage)
    (ora : PipelineOracle) (st : St) : St :=
  match batch with
  | [] => st
  | msg :: rest =>
    let st1 :=
      if msg.type = "document_uploaded" then processDocumentVariant msg ora st else st
    queueConsumeVariant rest ora st1

/-- Model of `getMimeType` from the document routes: extension-based
fallback for files whose `type` is empty. -/
def getMimeType (filename : String) : String :=
  let ext := strToLower (String.mk (((splitOnChar '.' filename.data).getLast?).getD []))
  if ext = "pdf" then "application/pdf"
  else if ext = "docx" then docxMime
  else if ext = "xlsx" then xlsxMime
  else if ext = "jpg" then "image/jpeg"
  else if ext = "jpeg" then "image/jpeg"
  else if ext = "png" then "image/png"
  else if ext = "txt" then "text/plain"
  else if ext = "eml" then "message/rfc822"
  else "application/octet-stream"

/-- The `allowedTypes` whitelist of `uploadFile`. -/
def allowedTypes : List String :=
  ["application/pdf", docxMime, xlsxMime, "image/jpeg", "image/png",
   "text/plain", "message/rfc822"]

/-- The file argument of `uploadFile`: name, raw bytes (as a string),
reported size and the browser-provided `type` (empty when absent). -/
structure FileUpload where
  name : String
  content : String
  size : Nat
  fileType : String
deriving Repr, DecidableEq

/-- The response object `uploadFile` resolves with. -/
structure DocumentUploadResponse where
  id : Nat
  title : String
  status : String
  created_at : Nat
deriving Repr, DecidableEq

/-- The environment of `uploadFile`: whether `env.PROCESSING_QUEUE` is
bound (paid plan), the `sha256` content hash, and the pipeline oracle
used when processing runs inline. -/
structure UploadEnv where
  hasQueue : Bool
  hash : String → String
  ora : PipelineOracle

/-- Model of `uploadFile` from the document routes
(`src/unnamed/part_002`): duplicate detection by
`(workspace_id, content_hash)`, mime validation, R2 put, `pending`
insert, then either a queue send or an inline `processDocument` run. -/
def uploadFile (file : FileUpload) (workspaceId userId : String)
    (env : UploadEnv) (st : St) : Except String DocumentUploadResponse × St :=
  let docId := st.nextId
  let stId : St := { st with nextId := st.nextId + 1 }
  let now := env.ora.now
  let contentHash := env.hash file.content
  match stId.db.documents.find? (fun d =>
      d.workspace_id = workspaceId ∧ d.content_hash = contentHash) with
  | some existing =>
    (Except.ok ⟨existing.id, existing.title, "duplicate", now⟩, stId)
  | none =>
    let mimeType := if file.fileType = "" then getMimeType file.name else file.fileType
    if mimeType ∈ allowedTypes then
      let fileKey :=
        "documents/" ++ workspaceId ++ "/" ++ toString docId ++ "/" ++ file.name
      let row : DocumentRow :=
        ⟨docId, workspaceId, userId, file.name, fileKey, none, contentHash,
         mimeType, file.size, "pending", none, now, now⟩
      let stIns : St := { stId with
        files := filesPut stId.files fileKey file.content,
        db := { stId.db with documents := stId.db.documents ++ [row] } }
      let msg : ProcessingQueueMessage :=
        ⟨"document_uploaded", docId, workspaceId, userId, fileKey, mimeType⟩
      if env.hasQueue then
        (Except.ok ⟨docId, file.name, "pending", now⟩,
         { stIns with queue := stIns.queue ++ [msg] })
      else
        (Except.ok ⟨docId, file.name, "ready", now⟩, processDocument msg env.ora stIns)
    else
      (Except.error ("Unsupported file type: " ++ mimeType), stId)

/-- Model of the `addTagsToDocument` helper of the tag routes: insert
the association only if absent, and increment the usage counter exactly
on insertion. -/
def addTagsToDocument (documentId : Nat) (tagIds : List Nat) (source : String)
    (now : Nat) (db : Db) : Db :=
  match tagIds with
  | [] => db
  | tagId :: rest =>
    let db1 :=
      if db.document_tags.any (fun r =>
          r.document_id = documentId ∧ r.tag_id = tagId) then db
      else
        let db' : Db := { db with document_tags :=
          db.document_tags ++ [⟨documentId, tagId, source, none, now⟩] }
        { db' with tags := db'.tags.map (fun t =>
            if t.id = tagId then { t with usage_count := t.usage_count + 1 } else t) }
    addTagsToDocument documentId rest source now db1

/-- Model of the `removeTagsFromDocument` helper of the tag routes:
delete the association and decrement the usage counter, floored at
zero (`MAX(0, usage_count - 1)`, which is `Nat` subtraction). -/
def removeTagsFromDocument (documentId : Nat) (tagIds : List Nat) (db : Db) : Db :=
  match tagIds with
  | [] => db
  | tagId :: rest =>
    let db1 : Db := { db with document_tags := db.document_tags.filter (fun r =>
      ¬ (r.document_id = documentId ∧ r.tag_id = tagId)) }
    let db2 : Db := { db1 with tags := db1.tags.map (fun t =>
      if t.id = tagId then { t with usage_count := t.usage_count - 1 } else t) }
    removeTagsFromDocument documentId rest db2

/-- Model of the data effect of `handleDelete` for a document
(`src/unnamed/part_002`): delete the blobs, the vectors of the
document's chunks, and the chunk / tag-association / document rows.
No tag usage counter is touched. -/
def handleDeleteDocument (docId : Nat) (st : St) : St :=
  match st.db.documents.find? (fun d => d.id = docId) with
  | none => st
  | some doc =>
    let files1 := filesDelete st.files doc.file_key
    let files2 :=
      match doc.text_key with
      | some tk => filesDelete files1 tk
      | none => files1
    let chunkIds :=
      (st.db.document_chunks.filter (fun c => c.document_id = docId)).map (fun c => c.id)
    let vectors := st.vectors.filter (fun v => ¬ v.id ∈ chunkIds)
    let db : Db := { st.db with
      document_chunks := st.db.document_chunks.filter (fun c => ¬ c.document_id = docId),
      document_tags := st.db.document_tags.filter (fun r => ¬ r.document_id = docId),
      documents := st.db.documents.filter (fun d => ¬ d.id = docId) }
    { st with files := files2, vectors := vectors, db := db }

/-- Decidable list containment test for the embedded SQL `LIKE`. -/
def listInfixB {α : Type} [DecidableEq α] : List α → List α → Bool
  | needle, [] => needle.isEmpty
  | needle, c :: rest => needle.isPrefixOf (c :: rest) || listInfixB needle rest

/-- Model of the SQLite `hay LIKE '%' || needle || '%'` test (ASCII
case-insensitive substring). -/
def likeContains (hay needle : String) : Bool :=
  listInfixB (strToLower needle).data (strToLower hay).data

/-- The search request body (`SearchRequest`). -/
structure SearchRequest where
  query : Option String
  tags : Option (List String)
  document_types : Option (List String)
  date_from : Option Nat
  date_to : Option Nat
  limit : Option Nat
  offset : Option Nat
deriving Repr, DecidableEq

/-- `Math.min(body.limit || 20, 100)` (`0` is falsy). -/
def effLimit (r : SearchRequest) : Nat :=
  min (match r.limit with
       | some n => if n = 0 then 20 else n
       | none => 20) 100

/-- `body.offset || 0`. -/
def effOffset (r : SearchRequest) : Nat := r.offset.getD 0

/-- The truthiness test `if (body.query)`. -/
def hasQueryStr (r : SearchRequest) : Bool :=
  match r.query with
  | some q => ¬ q = ""
  | none => false

/-- The tag list, with `body.tags && body.tags.length > 0` collapsing
the absent and empty cases. -/
def effTags (r : SearchRequest) : List String := r.tags.getD []

/-- The document-type list, treated like `effTags`. -/
def effTypes (r : SearchRequest) : List String := r.document_types.getD []

/-- The `WHERE` clause of the faceted search query
(`handleFacetedSearch`): workspace scope, `status = 'ready'`, optional
title/body `LIKE`, tag membership via the joins, mime `LIKE` and the
date range. -/
def facetedWhere (db : Db) (wsIds : List String) (req : SearchRequest)
    (d : DocumentRow) : Bool :=
  wsIds.contains d.workspace_id
  && d.status = "ready"
  && (match req.query with
      | some q =>
        if q = "" then true
        else likeContains d.title q
          || db.document_chunks.any (fun c =>
              c.document_id = d.id && likeContains c.text_content q)
      | none => true)
  && ((effTags req).isEmpty
      || db.document_tags.any (fun dt =>
          dt.document_id = d.id && db.tags.any (fun t =>
            t.id = dt.tag_id && (effTags req).contains t.name)))
  && ((effTypes req).isEmpty
      || (effTypes req).any (fun ty => likeContains d.mime_type ty))
  && (match req.date_from with
      | some f => decide (f ≤ d.created_at)
      | none => true)
  && (match req.date_to with
      | some t => decide (d.created_at ≤ t)
      | none => true)

/-- The `WHERE` clause of the faceted total-count query, which repeats
only the workspace, status, text and tag conditions. -/
def facetedCountWhere (db : Db) (wsIds : List String) (req : SearchRequest)
    (d : DocumentRow) : Bool :=
  wsIds.contains d.workspace_id
  && d.status = "ready"
  && (match req.query with
      | some q =>
        if q = "" then true
        else likeContains d.title q
          || db.document_chunks.any (fun c =>
              c.document_id = d.id && likeContains c.text_content q)
      | none => true)
  && ((effTags req).isEmpty
      || db.document_tags.any (fun dt =>
          dt.document_id = d.id && db.tags.any (fun t =>
            t.id = dt.tag_id && (effTags req).contains t.name)))

/-- A search result row after enrichment (`DocumentSearchResult`). -/
structure DocumentSearchResult where
  id : Nat
  title : String
  snippet : String
  tags : List (Nat × String × Option String)
  relevance_score : Option Int
  created_at : Nat
deriving Repr, DecidableEq

/-- The chunk with the least index (`ORDER BY chunk_index ASC LIMIT 1`). -/
def minIndexChunk : List ChunkRow → Option ChunkRow
  | [] => none
  | c :: rest =>
    match minIndexChunk rest with
    | none => some c
    | some m => if c.chunk_index ≤ m.chunk_index then some c else some m

/-- Model of the `enrichDocuments` helper of the search routes: attach
the tags and the 200-character snippet of the first chunk. -/
def enrichDocuments (db : Db) (docs : List DocumentRow) : List DocumentSearchResult :=
  docs.map (fun d =>
    let tags := (db.document_tags.filter (fun dt => dt.document_id = d.id)).filterMap
      (fun dt => (db.tags.find? (fun t => t.id = dt.tag_id)).map
        (fun t => (t.id, t.name, t.category)))
    let snippet :=
      match minIndexChunk (db.document_chunks.filter (fun c => c.document_id = d.id)) with
      | some c => c.text_content.take 200
      | none => ""
    ⟨d.id, d.title, snippet, tags, none, d.created_at⟩)

/-- Stable insertion of an element for a JavaScript-style comparator:
`x` goes before the first element `y` with `cmp x y ≤ 0`. -/
def insertCmp {α : Type} (cmp : α → α → Int) (x : α) : List α → List α
  | [] => [x]
  | y :: ys => if cmp x y ≤ 0 then x :: y :: ys else y :: insertCmp cmp x ys

/-- Stable sort over a JavaScript-style comparator, modelling
`Array.prototype.sort`. -/
def sortByCmp {α : Type} (cmp : α → α → Int) : List α → List α
  | [] => []
  | x :: xs => insertCmp cmp x (sortByCmp cmp xs)

/-- The `ORDER BY d.created_at DESC` comparator on document rows. -/
def createdDescCmpRow (a b : DocumentRow) : Int :=
  (b.created_at : Int) - (a.created_at : Int)

/-- The response shape of the search endpoints. -/
structure SearchResponse where
  documents : List DocumentSearchResult
  total : Nat
  has_more : Bool
deriving Repr, DecidableEq

/-- Model of `handleFacetedSearch`: filter, order by creation date
descending, over-fetch `limit + 1` rows at the given offset, and issue
the separate total-count query. -/
def handleFacetedSearch (db : Db) (wsIds : List String) (req : SearchRequest) :
    SearchResponse :=
  if wsIds.isEmpty then ⟨[], 0, false⟩
  else
    let limit := effLimit req
    let offset := effOffset req
    let filtered := db.documents.filter (facetedWhere db wsIds req)
    let rows := ((sortByCmp createdDescCmpRow filtered).drop offset).take (limit + 1)
    let documents := enrichDocuments db (rows.take limit)
    let total := (db.documents.filter (facetedCountWhere db wsIds req)).length
    ⟨documents, total, decide (rows.length > limit)⟩

/-- One match returned by `env.VECTORS.query`. -/
structure VMatch where
  id : Nat × Nat
  score : Option Int
  document_id : Option Nat
  text : Option String
deriving Repr, DecidableEq

/-- The first loop of `handleCombinedSearch`: collect the semantic
candidate document ids in order and the best (first) score per
document. -/
def collectSemantic : List VMatch → List Nat → List (Nat × Int) →
    List Nat × List (Nat × Int)
  | [], ids, scores => (ids, scores)
  | m :: rest, ids, scores =>
    match m.document_id with
    | none => collectSemantic rest ids scores
    | some docId =>
      if scores.any (fun p => p.1 = docId) then collectSemantic rest ids scores
      else collectSemantic rest (ids ++ [docId]) (scores ++ [(docId, m.score.getD 0)])

/-- The `WHERE` clause of the combined search filter query: workspace
scope, `status = 'ready'`, restriction to the semantic candidate set
when it is non-empty, tags, mime types and dates. -/
def combinedWhere (db : Db) (wsIds : List String) (req : SearchRequest)
    (semanticDocIds : List Nat) (d : DocumentRow) : Bool :=
  wsIds.contains d.workspace_id
  && d.status = "ready"
  && (semanticDocIds.isEmpty || semanticDocIds.contains d.id)
  && ((effTags req).isEmpty
      || db.document_tags.any (fun dt =>
          dt.document_id = d.id && db.tags.any (fun t =>
            t.id = dt.tag_id && (effTags req).contains t.name)))
  && ((effTypes req).isEmpty
      || (effTypes req).any (fun ty => likeContains d.mime_type ty))
  && (match req.date_from with
      | some f => decide (f ≤ d.created_at)
      | none => true)
  && (match req.date_to with
      | some t => decide (d.created_at ≤ t)
      | none => true)

/-- The sort comparator of `handleCombinedSearch`: score descending
when both sides have a relevance score, otherwise creation date
descending. -/
def combinedCmp (a b : DocumentSearchResult) : Int :=
  match a.relevance_score, b.relevance_score with
  | some x, some y => y - x
  | _, _ => (b.created_at : Int) - (a.created_at : Int)

/-- Model of `handleCombinedSearch`: when a query string is present the
vector index is asked for `limit * 3` neighbours, the faceted filters
are applied over the candidate set, scores are attached, and the list
is sorted with `combinedCmp` and sliced to `limit`. -/
def handleCombinedSearch (db : Db) (wsIds : List String) (req : SearchRequest)
    (vq : Nat → List VMatch) : SearchResponse :=
  if wsIds.isEmpty then ⟨[], 0, false⟩
  else
    let limit := effLimit req
    let sem :=
      if hasQueryStr req then collectSemantic (vq (limit * 3)) [] [] else ([], [])
    let filtered := db.documents.filter (combinedWhere db wsIds req sem.1)
    let documents := (enrichDocuments db filtered).map (fun r =>
      { r with relevance_score := (sem.2.find? (fun p => p.1 = r.id)).map (fun p => p.2) })
    let sorted := sortByCmp combinedCmp documents
    ⟨sorted.take limit, sorted.length, decide (sorted.length > limit)⟩

/-- A source entry of a chat turn (`ChatSource`). -/
structure ChatSource where
  document_id : Nat
  document_title : String
  chunk_id : Nat × Nat
  text_snippet : String
  relevance_score : Int
deriving Repr, DecidableEq

/-- The title resolution of `retrieveContext`:
`doc?.title || 'Unknown Document'`. -/
def titleLookup (db : Db) (docId : Nat) : String :=
  match db.documents.find? (fun d => d.id = docId) with
  | some d => jsOrStr d.title "Unknown Document"
  | none => "Unknown Document"

/-- The match loop of `retrieveContext` from the chat routes: skip
matches without a document id, skip matches that would introduce a
sixth distinct document, resolve the title once per document and reuse
it from the already-pushed source afterwards, and push one source per
surviving match. -/
def retrieveContextGo (db : Db) :
    List VMatch → List Nat → List ChatSource → List ChatSource
  | [], _, sources => sources
  | m :: rest, seen, sources =>
    match m.document_id with
    | none => retrieveContextGo db rest seen sources
    | some docId =>
      if 5 ≤ seen.length && ¬ seen.contains docId then
        retrieveContextGo db rest seen sources
      else
        let titleSeen : String × List Nat :=
          if seen.contains docId then
            (((sources.find? (fun s => s.document_id = docId)).map
                (fun s => s.document_title)).getD "Unknown Document", seen)
          else
            (titleLookup db docId, seen ++ [docId])
        retrieveContextGo db rest titleSeen.2
          (sources ++ [⟨docId, titleSeen.1, m.id, (m.text.getD ""), m.score.getD 0⟩])

/-- Model of `retrieveContext`: query the vector index with `topK = 10`
scoped to the session's workspace, then run the match loop. -/
def retrieveContext (vq : Nat → String → List VMatch) (workspaceId : String)
    (db : Db) : List ChatSource :=
  retrieveContextGo db (vq 10 workspaceId) [] []

/-! ### Lemmas about the splitter and the chunk loop -/

theorem jsSplitWsGo_ne_nil (s : List Char) (st : Option (List Char)) :
    jsSplitWsGo s st ≠ [] := by
  induction s generalizing st with
  | nil => cases st <;> simp [jsSplitWsGo]
  | cons c rest ih =>
    cases st with
    | some acc =>
      by_cases hw : isWsChar c
      · rw [jsSplitWsGo, if_pos hw]
        simp
      · rw [jsSplitWsGo, if_neg hw]
        exact ih _
    | none =>
      by_cases hw : isWsChar c
      · rw [jsSplitWsGo, if_pos hw]
        exact ih _
      · rw [jsSplitWsGo, if_neg hw]
        exact ih _

theorem jsSplitWsGo_nows (s : List Char) (acc : List Char)
    (h : ∀ c ∈ s, isWsChar c = false) :
    jsSplitWsGo s (some acc) = [acc.reverse ++ s] := by
  induction s generalizing acc with
  | nil => simp [jsSplitWsGo]
  | cons c rest ih =>
    have hc : isWsChar c = false := h c (List.mem_cons_self c rest)
    have hrest : ∀ x ∈ rest, isWsChar x = false :=
      fun x hx => h x (List.mem_cons_of_mem c hx)
    simp [jsSplitWsGo, hc, ih (c :: acc) hrest]

theorem jsSplitWsGo_head (s acc : List Char) :
    ∃ u, (jsSplitWsGo s (some acc)).head? = some (acc.reverse ++ u) := by
  induction s generalizing acc with
  | nil => exact ⟨[], by simp [jsSplitWsGo]⟩
  | cons c rest ih =>
    by_cases hc : isWsChar c
    · exact ⟨[], by simp [jsSplitWsGo, hc]⟩
    · obtain ⟨u, hu⟩ := ih (c :: acc)
      refine ⟨c :: u, ?_⟩
      simpa [jsSplitWsGo, hc] using hu

theorem jsSplitWs_ne_nil (s : String) : jsSplitWs s ≠ [] := by
  intro h
  have := jsSplitWsGo_ne_nil s.data (some [])
  simp [jsSplitWs] at h
  exact this h

theorem jsSplitWs_eq_empty_singleton (s : String) (h : jsSplitWs s = [""]) :
    s = "" := by
  by_contra hs
  have hdata : s.data ≠ [] := by
    intro hd
    apply hs
    cases s with
    | mk l => simp at hd; simp [hd]
  obtain ⟨c, rest, hc⟩ := List.exists_cons_of_ne_nil hdata
  unfold jsSplitWs at h
  rw [hc] at h
  by_cases hw : isWsChar c
  · rw [jsSplitWsGo, if_pos hw] at h
    have hne := jsSplitWsGo_ne_nil rest none
    cases hgo : jsSplitWsGo rest none with
    | nil => exact hne hgo
    | cons a t => rw [hgo] at h; simp at h
  · rw [jsSplitWsGo, if_neg hw] at h
    obtain ⟨u', hu'⟩ := jsSplitWsGo_head rest [c]
    cases hgo : jsSplitWsGo rest (some [c]) with
    | nil => exact jsSplitWsGo_ne_nil rest (some [c]) hgo
    | cons a t =>
      rw [hgo] at h hu'
      simp at hu'
      rw [hu'] at h
      have hh := congrArg List.head? h
      simp at hh
      have hdat := congrArg String.data hh
      simp at hdat

theorem joinSpace_cons_cons (a b : String) (l : List String) :
    joinSpace (a :: b :: l) = a ++ " " ++ joinSpace (b :: l) := by
  simp [joinSpace]

theorem joinSpace_ne_empty_of_two (l : List String) (h : 2 ≤ l.length) :
    joinSpace l ≠ "" := by
  match l, h with
  | a :: b :: rest, _ =>
    rw [joinSpace_cons_cons]
    intro hcontr
    have h2 := congrArg String.length hcontr
    simp only [String.length_append] at h2
    have hsp : (" " : String).length = 1 := rfl
    have hemp : ("" : String).length = 0 := rfl
    omega

theorem jsSlice_length (l : List String) (s e : Int)
    (hs : 0 ≤ s) (hse : s ≤ e) (he : e ≤ (l.length : Int)) :
    (jsSlice l s e).length = (e - s).toNat := by
  unfold jsSlice jsSliceClamp
  have h1 : ¬ s < 0 := by omega
  have h2 : ¬ e < 0 := by omega
  rw [if_neg h1, if_neg h2]
  have hsl : s.toNat ≤ l.length := by omega
  have hel : e.toNat ≤ l.length := by omega
  simp only [List.length_drop, List.length_take]
  omega

theorem chunk_window_ne_empty (words : List String) (hW : words ≠ [""])
    (start : Int)
    (hstart : start = 0 ∨ (0 < start ∧ start < (words.length : Int) - 48))
    (hlt : start < (words.length : Int)) :
    joinSpace (jsSlice words start (min (start + 384) (words.length : Int))) ≠ "" := by
  have hs0 : 0 ≤ start := by rcases hstart with h | h <;> omega
  have hee : start < min (start + 384) (words.length : Int) := by
    apply lt_min <;> omega
  have heL : min (start + 384) (words.length : Int) ≤ (words.length : Int) :=
    min_le_right _ _
  have hlen : (jsSlice words start (min (start + 384) (words.length : Int))).length
      = (min (start + 384) (words.length : Int) - start).toNat :=
    jsSlice_length words start _ hs0 (le_of_lt hee) heL
  by_cases h1 : (min (start + 384) (words.length : Int) - start).toNat = 1
  · have hstart0 : start = 0 := by
      rcases hstart with h0 | hmid
      · exact h0
      · exfalso
        have h49 : (49 : Int) ≤ min (start + 384) (words.length : Int) - start := by
          have hm : start + 49 ≤ min (start + 384) (words.length : Int) :=
            le_min (by omega) (by omega)
          omega
        omega
    subst hstart0
    have he1 : min ((0 : Int) + 384) (words.length : Int) = 1 := by omega
    have hL1 : words.length = 1 := by
      rcases Nat.lt_or_ge words.length 2 with hlen2 | hlen2
      · omega
      · exfalso
        have : (2 : Int) ≤ min ((0 : Int) + 384) (words.length : Int) := by
          apply le_min <;> omega
        omega
    obtain ⟨w, hw⟩ := List.length_eq_one.mp hL1
    have hwne : w ≠ "" := fun hwe => hW (by rw [hw, hwe])
    have hslice : jsSlice words 0 (min ((0 : Int) + 384) (words.length : Int)) = [w] := by
      rw [he1, hw]
      simp [jsSlice, jsSliceClamp]
    rw [hslice]
    simpa [joinSpace] using hwne
  · exact joinSpace_ne_empty_of_two _ (by omega)

theorem chunkTextGo_text_ne_empty (words : List String) (hW : words ≠ [""])
    (fuel : Nat) :
    ∀ start : Int, (start = 0 ∨ (0 < start ∧ start < (words.length : Int) - 48)) →
      ∀ c ∈ chunkTextGo words 384 48 fuel start, c.text ≠ "" := by
  induction fuel with
  | zero => intro start _ c hc; simp [chunkTextGo] at hc
  | succ fuel ih =>
    intro start hstart c hc
    rw [chunkTextGo] at hc
    by_cases hlt : start < (words.length : Int)
    · rw [if_pos hlt] at hc
      simp only [Nat.cast_ofNat] at hc
      split at hc
      · rename_i hbrk
        simp only [List.mem_singleton] at hc
        subst hc
        exact chunk_window_ne_empty words hW start hstart hlt
      · rename_i hbrk
        rcases List.mem_cons.mp hc with hc0 | hcrest
        · subst hc0
          exact chunk_window_ne_empty words hW start hstart hlt
        · have hs0 : 0 ≤ start := by rcases hstart with h | h <;> omega
          have heL' : min (start + 384) (words.length : Int) < (words.length : Int) := by
            omega
          have heeq : min (start + 384) (words.length : Int) = start + 384 := by
            rcases min_cases (start + 384) ((words.length : Int)) with ⟨h1, _⟩ | ⟨h1, _⟩
            · exact h1
            · omega
          refine ih (min (start + 384) (words.length : Int) - 48)
            (Or.inr ⟨by omega, by omega⟩) c ?_
          exact hcrest
    · rw [if_neg hlt] at hc
      simp at hc

/-! ### Lemmas about the ingestion pipeline -/

/-- The identifying fields of a document row that no pipeline step ever
rewrites. -/
def docKey (d : DocumentRow) : Nat × String × String × String :=
  (d.id, d.workspace_id, d.title, d.content_hash)

theorem docKey_setStatusProcessing (db : Db) (docId now : Nat) :
    ((setStatusProcessing db docId now).documents).map docKey
      = db.documents.map docKey := by
  simp only [setStatusProcessing, List.map_map]
  apply List.map_congr_left
  intro d _
  by_cases h : d.id = docId <;> simp [h, docKey]

theorem docKey_setStatusReady (db : Db) (docId : Nat) (tk : String) (now : Nat) :
    ((setStatusReady db docId tk now).documents).map docKey
      = db.documents.map docKey := by
  simp only [setStatusReady, List.map_map]
  apply List.map_congr_left
  intro d _
  by_cases h : d.id = docId <;> simp [h, docKey]

theorem docKey_setStatusError (db : Db) (docId : Nat) (msg : String) (now : Nat) :
    ((setStatusError db docId msg now).documents).map docKey
      = db.documents.map docKey := by
  simp only [setStatusError, List.map_map]
  apply List.map_congr_left
  intro d _
  by_cases h : d.id = docId <;> simp [h, docKey]

theorem mem_setStatusReady (db : Db) (docId : Nat) (tk : String) (now : Nat)
    (d : DocumentRow) (hd : d ∈ (setStatusReady db docId tk now).documents)
    (hid : d.id = docId) : d.status = "ready" := by
  simp only [setStatusReady, List.mem_map] at hd
  obtain ⟨d0, _, hd0⟩ := hd
  by_cases h : d0.id = docId
  · rw [if_pos h] at hd0
    rw [← hd0]
  · rw [if_neg h] at hd0
    rw [← hd0] at hid
    exact absurd hid h

theorem mem_setStatusError (db : Db) (docId : Nat) (msg : String) (now : Nat)
    (d : DocumentRow) (hd : d ∈ (setStatusError db docId msg now).documents)
    (hid : d.id = docId) : d.status = "error" ∧ d.error_message = some msg := by
  simp only [setStatusError, List.mem_map] at hd
  obtain ⟨d0, _, hd0⟩ := hd
  by_cases h : d0.id = docId
  · rw [if_pos h] at hd0
    rw [← hd0]
    exact ⟨rfl, rfl⟩
  · rw [if_neg h] at hd0
    rw [← hd0] at hid
    exact absurd hid h

/-- The state a `chunkLoop` run ends in, whether or not it threw. -/
def exceptSt (r : Except (String × St) St) : St :=
  match r with
  | Except.ok st => st
  | Except.error (_, st) => st

theorem insertChunkRow_documents {db db2 : Db} {row : ChunkRow}
    (h : insertChunkRow db row = Except.ok db2) :
    db2.documents = db.documents ∧ db2.tags = db.tags
      ∧ db2.document_tags = db.document_tags := by
  unfold insertChunkRow at h
  split at h
  · cases h
  · cases h
    exact ⟨rfl, rfl, rfl⟩

theorem insertDocumentTagRow_documents {db db2 : Db} {row : DocumentTagRow}
    (h : insertDocumentTagRow db row = Except.ok db2) :
    db2.documents = db.documents ∧ db2.document_chunks = db.document_chunks := by
  unfold insertDocumentTagRow at h
  split at h
  · cases h
  · cases h
    exact ⟨rfl, rfl⟩

theorem chunkLoop_documents (docId : Nat) (wsId : String) (ora : PipelineOracle) :
    ∀ (chunks : List Chunk) (i : Nat) (st : St),
      (exceptSt (chunkLoop docId wsId ora chunks i st)).db.documents
        = st.db.documents := by
  intro chunks
  induction chunks with
  | nil => intro i st; simp [chunkLoop, exceptSt]
  | cons c rest ih =>
    intro i st
    rw [chunkLoop]
    cases ora.embed i with
    | error m => simp [exceptSt]
    | ok emb =>
      simp only
      cases hins : insertChunkRow st.db ⟨(docId, i), docId, i, c.text, c.tokenCount⟩ with
      | error m => simp [exceptSt]
      | ok db2 =>
        rw [ih (i + 1)]
        exact (insertChunkRow_documents hins).1

theorem chunkLoop_nextId (docId : Nat) (wsId : String) (ora : PipelineOracle) :
    ∀ (chunks : List Chunk) (i : Nat) (st : St),
      (exceptSt (chunkLoop docId wsId ora chunks i st)).nextId = st.nextId := by
  intro chunks
  induction chunks with
  | nil => intro i st; simp [chunkLoop, exceptSt]
  | cons c rest ih =>
    intro i st
    rw [chunkLoop]
    cases ora.embed i with
    | error m => simp [exceptSt]
    | ok emb =>
      simp only
      cases hins : insertChunkRow st.db ⟨(docId, i), docId, i, c.text, c.tokenCount⟩ with
      | error m => simp [exceptSt]
      | ok db2 => rw [ih (i + 1)]

theorem tagLoop_documents (docId : Nat) (wsId : String) (now : Nat) :
    ∀ (suggs : List TagSuggestion) (st : St),
      (exceptSt (tagLoop docId wsId now suggs st)).db.documents
        = st.db.documents := by
  intro suggs
  induction suggs with
  | nil => intro st; simp [tagLoop, exceptSt]
  | cons t rest ih =>
    intro st
    rw [tagLoop]
    simp only
    cases hfind : st.db.tags.find?
        (fun r => decide (r.workspace_id = wsId ∧ r.name = t.name)) with
    | some r =>
      simp only
      cases hins : insertDocumentTagRow st.db
          ⟨docId, r.id, "ai_suggested", t.confidence, now⟩ with
      | error m => simp [exceptSt]
      | ok db2 =>
        rw [ih]
        exact (insertDocumentTagRow_documents hins).1
    | none =>
      simp only
      cases hins : insertDocumentTagRow
          { st.db with tags := st.db.tags ++
            [⟨st.nextId, wsId, t.name, jsCategory t.category, 0, now⟩] }
          ⟨docId, st.nextId, "ai_suggested", t.confidence, now⟩ with
      | error m => simp [exceptSt]
      | ok db2 =>
        rw [ih]
        exact (insertDocumentTagRow_documents hins).1

theorem tagLoop_nextId (docId : Nat) (wsId : String) (now : Nat) :
    ∀ (suggs : List TagSuggestion) (st : St),
      st.nextId ≤ (exceptSt (tagLoop docId wsId now suggs st)).nextId := by
  intro suggs
  induction suggs with
  | nil => intro st; simp [tagLoop, exceptSt]
  | cons t rest ih =>
    intro st
    rw [tagLoop]
    simp only
    cases hfind : st.db.tags.find?
        (fun r => decide (r.workspace_id = wsId ∧ r.name = t.name)) with
    | some r =>
      simp only
      cases hins : insertDocumentTagRow st.db
          ⟨docId, r.id, "ai_suggested", t.confidence, now⟩ with
      | error m => simp [exceptSt]
      | ok db2 =>
        simp only
        exact ih ({ st with db := db2 } : St)
    | none =>
      simp only
      cases hins : insertDocumentTagRow
          { st.db with tags := st.db.tags ++
            [⟨st.nextId, wsId, t.name, jsCategory t.category, 0, now⟩] }
          ⟨docId, st.nextId, "ai_suggested", t.confidence, now⟩ with
      | error m => simp [exceptSt]
      | ok db2 =>
        simp only
        have := ih ({ st with nextId := st.nextId + 1, db := db2 } : St)
        simp only at this
        omega

theorem chunkLoop_fail (docId : Nat) (wsId : String) (ora : PipelineOracle)
    (m : String) :
    ∀ (chunks : List Chunk) (k i : Nat) (st : St) (hk : k < chunks.length),
      (∀ j, j < k → ∃ v, ora.embed (i + j) = Except.ok v) →
      ora.embed (i + k) = Except.error m →
      (∀ c ∈ st.db.document_chunks,
        (c.id.1 = docId → c.id.2 < i) ∧ (c.document_id = docId → c.chunk_index < i)) →
      ∃ st', chunkLoop docId wsId ora chunks i st = Except.error (m, st') ∧
        st'.db.documents = st.db.documents ∧
        (∀ c ∈ st.db.document_chunks, c ∈ st'.db.document_chunks) ∧
        (∀ j, ∀ hj : j < k,
          (⟨(docId, i + j), docId, i + j, (chunks.get ⟨j, Nat.lt_trans hj hk⟩).text,
            (chunks.get ⟨j, Nat.lt_trans hj hk⟩).tokenCount⟩ : ChunkRow)
            ∈ st'.db.document_chunks) ∧
        (∀ c ∈ st'.db.document_chunks, c.document_id = docId → c.chunk_index < i + k) := by
  intro chunks
  induction chunks with
  | nil => intro k i st hk; exact absurd hk (by simp)
  | cons c rest ih =>
    intro k i st hk hok herr hinv
    cases k with
    | zero =>
      refine ⟨st, ?_, rfl, fun c hc => hc, fun j hj => absurd hj (by omega), ?_⟩
      · rw [chunkLoop]
        rw [show i + 0 = i from rfl] at herr
        rw [herr]
      · intro cr hcr hdoc
        have := (hinv cr hcr).2 hdoc
        omega
    | succ k' =>
      obtain ⟨v, hv⟩ := hok 0 (Nat.succ_pos k')
      rw [show i + 0 = i from rfl] at hv
      have hnocol : (st.db.document_chunks.any
          (fun cr => cr.id = ((docId, i) : Nat × Nat))) = false := by
        rw [List.any_eq_false]
        intro cr hcr
        simp only [decide_eq_true_eq]
        intro hid
        have h1 := (hinv cr hcr).1
        rw [hid] at h1
        have := h1 rfl
        omega
      have hins : insertChunkRow st.db ⟨(docId, i), docId, i, c.text, c.tokenCount⟩
          = Except.ok { st.db with document_chunks :=
              st.db.document_chunks ++ [⟨(docId, i), docId, i, c.text, c.tokenCount⟩] } := by
        unfold insertChunkRow
        rw [hnocol]
        simp
      have hrec := ih k' (i + 1)
        (({ st with
            vectors := upsertVector st.vectors
              ⟨(docId, i), v, ⟨docId, wsId, i, c.text.take 500⟩⟩,
            db := { st.db with document_chunks :=
              st.db.document_chunks ++ [⟨(docId, i), docId, i, c.text, c.tokenCount⟩] } }) : St)
        (by simpa using Nat.succ_lt_succ_iff.mp hk)
        (by
          intro j hj
          obtain ⟨w, hw⟩ := hok (j + 1) (Nat.succ_lt_succ hj)
          refine ⟨w, ?_⟩
          rw [show i + 1 + j = i + (j + 1) by omega]
          exact hw)
        (by
          rw [show i + 1 + k' = i + (k' + 1) by omega]
          exact herr)
        (by
          intro cr hcr
          simp only [List.mem_append, List.mem_singleton] at hcr
          rcases hcr with hold | hnew
          · have h1 := hinv cr hold
            exact ⟨fun hid => Nat.lt_succ_of_lt (h1.1 hid),
                   fun hd => Nat.lt_succ_of_lt (h1.2 hd)⟩
          · subst hnew
            exact ⟨fun _ => Nat.lt_succ_self i, fun _ => Nat.lt_succ_self i⟩)
      obtain ⟨st', heq, hdocs, hmono, hpres, hbound⟩ := hrec
      refine ⟨st', ?_, ?_, ?_, ?_, ?_⟩
      · rw [chunkLoop, hv]
        simp only
        rw [hins]
        exact heq
      · rw [hdocs]
      · intro cr hcr
        exact hmono cr (by simp [hcr])
      · intro j hj
        cases j with
        | zero =>
          have : (⟨(docId, i), docId, i, c.text, c.tokenCount⟩ : ChunkRow)
              ∈ st'.db.document_chunks := hmono _ (by simp)
          simpa using this
        | succ j' =>
          have hj' : j' < k' := Nat.succ_lt_succ_iff.mp hj
          have := hpres j' hj'
          rw [show i + 1 + j' = i + (j' + 1) by omega] at this
          simpa using this
      · intro cr hcr hdoc
        have := hbound cr hcr hdoc
        omega

theorem processDocument_docKey (data : ProcessingQueueMessage)
    (ora : PipelineOracle) (st : St) :
    ((processDocument data ora st).db.documents).map docKey
      = (st.db.documents).map docKey := by
  unfold processDocument
  simp only
  cases hget : filesGet st.files data.file_key with
  | none =>
    simp only
    rw [docKey_setStatusError, docKey_setStatusProcessing]
  | some content =>
    simp only
    cases hloop : chunkLoop data.document_id data.workspace_id ora
        (chunkText (extractText content data.mime_type ora.ai) 512 64) 0
        ({ st with
            db := setStatusProcessing st.db data.document_id ora.now,
            files := filesPut st.files
              ("text/" ++ toString data.document_id ++ ".txt")
              (extractText content data.mime_type ora.ai) } : St) with
    | error e =>
      obtain ⟨m, st2⟩ := e
      have hdocs := chunkLoop_documents data.document_id data.workspace_id ora
        (chunkText (extractText content data.mime_type ora.ai) 512 64) 0
        ({ st with
            db := setStatusProcessing st.db data.document_id ora.now,
            files := filesPut st.files
              ("text/" ++ toString data.document_id ++ ".txt")
              (extractText content data.mime_type ora.ai) } : St)
      rw [hloop] at hdocs
      simp only [exceptSt] at hdocs
      simp only
      rw [docKey_setStatusError, hdocs]
      exact docKey_setStatusProcessing st.db data.document_id ora.now
    | ok st2 =>
      have hdocs := chunkLoop_documents data.document_id data.workspace_id ora
        (chunkText (extractText content data.mime_type ora.ai) 512 64) 0
        ({ st with
            db := setStatusProcessing st.db data.document_id ora.now,
            files := filesPut st.files
              ("text/" ++ toString data.document_id ++ ".txt")
              (extractText content data.mime_type ora.ai) } : St)
      rw [hloop] at hdocs
      simp only [exceptSt] at hdocs
      have hdocs2 : st2.db.documents.map docKey = st.db.documents.map docKey := by
        rw [hdocs]
        exact docKey_setStatusProcessing st.db data.document_id ora.now
      cases ora.autoTag with
      | error m =>
        simp only
        rw [docKey_setStatusError]
        exact hdocs2
      | ok suggs =>
        simp only
        cases htag : tagLoop data.document_id data.workspace_id ora.now suggs st2 with
        | error e =>
          obtain ⟨m, st3⟩ := e
          have htdocs := tagLoop_documents data.document_id data.workspace_id ora.now
            suggs st2
          rw [htag] at htdocs
          simp only [exceptSt] at htdocs
          simp only
          rw [docKey_setStatusError, htdocs]
          exact hdocs2
        | ok st3 =>
          have htdocs := tagLoop_documents data.document_id data.workspace_id ora.now
            suggs st2
          rw [htag] at htdocs
          simp only [exceptSt] at htdocs
          cases ora.readyWrite with
          | error m =>
            simp only
            rw [docKey_setStatusError, htdocs]
            exact hdocs2
          | ok u =>
            simp only
            rw [docKey_setStatusReady, htdocs]
            exact hdocs2

theorem processDocument_nextId_le (data : ProcessingQueueMessage)
    (ora : PipelineOracle) (st : St) :
    st.nextId ≤ (processDocument data ora st).nextId := by
  unfold processDocument
  simp only
  cases hget : filesGet st.files data.file_key with
  | none => simp
  | some content =>
    simp only
    cases hloop : chunkLoop data.document_id data.workspace_id ora
        (chunkText (extractText content data.mime_type ora.ai) 512 64) 0
        ({ st with
            db := setStatusProcessing st.db data.document_id ora.now,
            files := filesPut st.files
              ("text/" ++ toString data.document_id ++ ".txt")
              (extractText content data.mime_type ora.ai) } : St) with
    | error e =>
      obtain ⟨m, st2⟩ := e
      have hnid := chunkLoop_nextId data.document_id data.workspace_id ora
        (chunkText (extractText content data.mime_type ora.ai) 512 64) 0
        ({ st with
            db := setStatusProcessing st.db data.document_id ora.now,
            files := filesPut st.files
              ("text/" ++ toString data.document_id ++ ".txt")
              (extractText content data.mime_type ora.ai) } : St)
      rw [hloop] at hnid
      simp only [exceptSt] at hnid
      simp only [setStatusError]
      omega
    | ok st2 =>
      have hnid := chunkLoop_nextId data.document_id data.workspace_id ora
        (chunkText (extractText content data.mime_type ora.ai) 512 64) 0
        ({ st with
            db := setStatusProcessing st.db data.document_id ora.now,
            files := filesPut st.files
              ("text/" ++ toString data.document_id ++ ".txt")
              (extractText content data.mime_type ora.ai) } : St)
      rw [hloop] at hnid
      simp only [exceptSt] at hnid
      cases ora.autoTag with
      | error m =>
        simp only [setStatusError]
        omega
      | ok suggs =>
        simp only
        cases htag : tagLoop data.document_id data.workspace_id ora.now suggs st2 with
        | error e =>
          obtain ⟨m, st3⟩ := e
          have htnid := tagLoop_nextId data.document_id data.workspace_id ora.now
            suggs st2
          rw [htag] at htnid
          simp only [exceptSt] at htnid
          simp only [setStatusError]
          omega
        | ok st3 =>
          have htnid := tagLoop_nextId data.document_id data.workspace_id ora.now
            suggs st2
          rw [htag] at htnid
          simp only [exceptSt] at htnid
          cases ora.readyWrite with
          | error m =>
            simp only [setStatusError]
            omega
          | ok u =>
            simp only [setStatusReady]
            omega

/-! ### Claim C1 -/

/-- C1: the ingestion pipeline catches every exception raised after the
`processing` status write and persists an `error` status with the
exception's message, so a document is never left in `processing` when
`processDocument` returns.  Part one: after any invocation, every row
of the document is `ready` or `error` with a message.  Part two: if the
blob fetch succeeded and the embedding call fails first on chunk index
`k` (the spec's scenario is `k = 2` of five chunks), the chunks with
indexes below `k` are persisted, no chunk of the document with index
`k` or above exists, and the document ends in status `error` with the
embedding exception's message. -/
theorem pipeline_error_boundary (data : ProcessingQueueMessage)
    (ora : PipelineOracle) (st : St) :
    (∀ d ∈ (processDocument data ora st).db.documents, d.id = data.document_id →
      d.status = "ready" ∨ (d.status = "error" ∧ d.error_message ≠ none)) ∧
    (∀ (content m : String) (k : Nat),
      filesGet st.files data.file_key = some content →
      ∀ hk : k < (chunkText (extractText content data.mime_type ora.ai) 512 64).length,
      (∀ j, j < k → ∃ v, ora.embed j = Except.ok v) →
      ora.embed k = Except.error m →
      (∀ c ∈ st.db.document_chunks,
        c.id.1 ≠ data.document_id ∧ c.document_id ≠ data.document_id) →
      ((∀ j, j < k → ∃ c ∈ (processDocument data ora st).db.document_chunks,
          c.document_id = data.document_id ∧ c.chunk_index = j) ∧
       (∀ c ∈ (processDocument data ora st).db.document_chunks,
          c.document_id = data.document_id → c.chunk_index < k) ∧
       (∀ d ∈ (processDocument data ora st).db.documents, d.id = data.document_id →
          d.status = "error" ∧ d.error_message = some m) ∧
       (∀ d0 ∈ st.db.documents, d0.id = data.document_id →
          ∃ d ∈ (processDocument data ora st).db.documents,
            d.id = data.document_id ∧ d.status = "error" ∧ d.error_message = some m))) := by
  constructor
  · intro d hd hid
    revert hd
    unfold processDocument
    simp only
    cases hget : filesGet st.files data.file_key with
    | none =>
      intro hd
      exact Or.inr ⟨(mem_setStatusError _ _ _ _ d hd hid).1, by
        rw [(mem_setStatusError _ _ _ _ d hd hid).2]; simp⟩
    | some content =>
      simp only
      cases hloop : chunkLoop data.document_id data.workspace_id ora
          (chunkText (extractText content data.mime_type ora.ai) 512 64) 0
          ({ st with
              db := setStatusProcessing st.db data.document_id ora.now,
              files := filesPut st.files
                ("text/" ++ toString data.document_id ++ ".txt")
                (extractText content data.mime_type ora.ai) } : St) with
      | error e =>
        obtain ⟨m, st2⟩ := e
        intro hd
        exact Or.inr ⟨(mem_setStatusError _ _ _ _ d hd hid).1, by
          rw [(mem_setStatusError _ _ _ _ d hd hid).2]; simp⟩
      | ok st2 =>
        cases ora.autoTag with
        | error m =>
          intro hd
          exact Or.inr ⟨(mem_setStatusError _ _ _ _ d hd hid).1, by
            rw [(mem_setStatusError _ _ _ _ d hd hid).2]; simp⟩
        | ok suggs =>
          simp only
          cases htag : tagLoop data.document_id data.workspace_id ora.now suggs st2 with
          | error e =>
            obtain ⟨m, st3⟩ := e
            intro hd
            exact Or.inr ⟨(mem_setStatusError _ _ _ _ d hd hid).1, by
              rw [(mem_setStatusError _ _ _ _ d hd hid).2]; simp⟩
          | ok st3 =>
            cases ora.readyWrite with
            | error m =>
              intro hd
              exact Or.inr ⟨(mem_setStatusError _ _ _ _ d hd hid).1, by
                rw [(mem_setStatusError _ _ _ _ d hd hid).2]; simp⟩
            | ok u =>
              intro hd
              exact Or.inl (mem_setStatusReady _ _ _ _ d hd hid)
  · intro content m k hget hk hok herr hfresh
    have hfail := chunkLoop_fail data.document_id data.workspace_id ora m
      (chunkText (extractText content data.mime_type ora.ai) 512 64) k 0
      ({ st with
          db := setStatusProcessing st.db data.document_id ora.now,
          files := filesPut st.files
            ("text/" ++ toString data.document_id ++ ".txt")
            (extractText content data.mime_type ora.ai) } : St)
      hk
      (by intro j hj; simpa using hok j hj)
      (by simpa using herr)
      (by
        intro c hc
        have hc' : c ∈ st.db.document_chunks := by
          simpa [setStatusProcessing] using hc
        exact ⟨fun hid => absurd hid (hfresh c hc').1,
               fun hd => absurd hd (hfresh c hc').2⟩)
    obtain ⟨st', heq, hdocs, hmono, hpres, hbound⟩ := hfail
    have hresult : processDocument data ora st
        = { st' with db := setStatusError st'.db data.document_id m ora.now } := by
      unfold processDocument
      simp only
      rw [hget]
      simp only
      rw [heq]
    rw [hresult]
    have hchunks : (setStatusError st'.db data.document_id m ora.now).document_chunks
        = st'.db.document_chunks := rfl
    refine ⟨?_, ?_, ?_, ?_⟩
    · intro j hj
      refine ⟨⟨(data.document_id, 0 + j), data.document_id, 0 + j,
        ((chunkText (extractText content data.mime_type ora.ai) 512 64).get
          ⟨j, Nat.lt_trans hj hk⟩).text,
        ((chunkText (extractText content data.mime_type ora.ai) 512 64).get
          ⟨j, Nat.lt_trans hj hk⟩).tokenCount⟩, ?_, rfl, by simp⟩
      rw [hchunks]
      exact hpres j hj
    · intro c hc hdoc
      rw [hchunks] at hc
      have := hbound c hc hdoc
      omega
    · intro d hd hid
      exact mem_setStatusError _ _ _ _ d hd hid
    · intro d0 hd0 hid0
      have h1 : (if d0.id = data.document_id then
          { d0 with status := "processing", updated_at := ora.now } else d0)
          ∈ (setStatusProcessing st.db data.document_id ora.now).documents :=
        List.mem_map_of_mem _ hd0
      rw [if_pos hid0] at h1
      have h2 : ({ d0 with status := "processing", updated_at := ora.now } : DocumentRow)
          ∈ st'.db.documents := by
        rw [hdocs]
        exact h1
      have h3 : (if ({ d0 with status := "processing", updated_at := ora.now } :
            DocumentRow).id = data.document_id then
          { ({ d0 with status := "processing", updated_at := ora.now } : DocumentRow) with
              status := "error", error_message := some m, updated_at := ora.now }
          else { d0 with status := "processing", updated_at := ora.now })
          ∈ (setStatusError st'.db data.document_id m ora.now).documents :=
        List.mem_map_of_mem _ h2
      rw [if_pos (by simpa using hid0)] at h3
      exact ⟨_, h3, by simpa using hid0, rfl, rfl⟩

/-- Concrete message for the pipeline witnesses. -/
def wMsg : ProcessingQueueMessage :=
  ⟨"document_uploaded", 1, "w1", "u1", "f1", "text/plain"⟩

/-- Concrete oracle whose embedding call fails. -/
def wOraFail : PipelineOracle :=
  ⟨⟨Except.ok "", Except.ok ""⟩, fun _ => Except.error "embedding failed",
   Except.ok [], Except.ok (), 7⟩

/-- Concrete initial state with one pending document and its blob. -/
def wSt : St :=
  ⟨⟨[⟨1, "w1", "u1", "a.txt", "f1", none, "h", "text/plain", 5, "pending", none, 0, 0⟩],
    [], [], []⟩, [], [("f1", "hello")], [], 50⟩

/-- Witness for the pipeline error-boundary theorem: on a concrete
one-chunk document whose embedding call fails, the persisted rows and
the `error` status are as stated. -/
theorem pipeline_error_boundary_witness :
    (∀ c ∈ (processDocument wMsg wOraFail wSt).db.document_chunks,
      c.document_id = wMsg.document_id → c.chunk_index < 0) ∧
    (∀ d ∈ (processDocument wMsg wOraFail wSt).db.documents, d.id = wMsg.document_id →
      d.status = "error" ∧ d.error_message = some "embedding failed") :=
  ⟨((pipeline_error_boundary wMsg wOraFail wSt).2 "hello" "embedding failed" 0
      (by decide) (by decide) (fun j hj => absurd hj (by omega)) rfl
      (by intro c hc; simp [wSt] at hc)).2.1,
   ((pipeline_error_boundary wMsg wOraFail wSt).2 "hello" "embedding failed" 0
      (by decide) (by decide) (fun j hj => absurd hj (by omega)) rfl
      (by intro c hc; simp [wSt] at hc)).2.2.1⟩

/-! ### Claims C3 and C4 -/

/-- Concrete oracle for a fully successful run: one embedding, one
suggested tag. -/
def wOraOk : PipelineOracle :=
  ⟨⟨Except.ok "", Except.ok ""⟩, fun _ => Except.ok [3],
   Except.ok [⟨"invoice", some "document_type", some 95⟩], Except.ok (), 7⟩

/-- C3: re-invoking `processDocument` on the same document id is not
idempotent.  The first run ends in `ready`; the second run of the
identical pipeline on the resulting state aborts on the
`document_chunks.id` primary-key violation (the chunk insert is a raw
`INSERT` with a deterministic id, and the tag association is likewise a
raw `INSERT` with no existence check) and flips the document to
`error`. -/
theorem reingestion_not_idempotent :
    ((processDocument wMsg wOraOk wSt).db.documents.map
      (fun d => (d.status, d.error_message)) = [("ready", none)]) ∧
    ((processDocument wMsg wOraOk (processDocument wMsg wOraOk wSt)).db.documents.map
      (fun d => (d.status, d.error_message))
      = [("error", some "UNIQUE constraint failed: document_chunks.id")]) := by
  constructor
  · decide
  · decide

/-- Concrete state for the document-delete half of C4: one ready
document carrying one user-added tag whose usage counter is correct. -/
def wStDel : St :=
  ⟨⟨[⟨1, "w1", "u1", "a.txt", "f1", none, "h", "text/plain", 5, "ready", none, 0, 0⟩],
    [⟨5, "w1", "invoice", none, 1, 0⟩],
    [⟨1, 5, "user_added", none, 0⟩],
    [⟨(1, 0), 1, 0, "hello", 2⟩]⟩,
   [⟨(1, 0), [3], ⟨1, "w1", 0, "hello"⟩⟩], [("f1", "hello")], [], 50⟩

/-- C4: the tag usage-count invariant (`usage_count` equals the number
of `DocumentTag` rows referencing the tag) is broken by the code on two
mutating operations.  After ingestion auto-tagging the freshly created
tag keeps `usage_count = 0` although one association row references it
(the pipeline inserts into `document_tags` directly, never through
`addTagsToDocument`); after a document delete the association rows are
removed but the usage counter is not decremented. -/
theorem tag_usage_count_invariant_broken :
    (((processDocument wMsg wOraOk wSt).db.tags.map
        (fun t => (t.name, t.usage_count)) = [("invoice", 0)]) ∧
     ((processDocument wMsg wOraOk wSt).db.document_tags.filter
        (fun r => r.tag_id = 50)).length = 1) ∧
    (((handleDeleteDocument 1 wStDel).db.document_tags = []) ∧
     ((handleDeleteDocument 1 wStDel).db.tags.map
        (fun t => (t.id, t.usage_count)) = [(5, 1)])) := by
  exact ⟨⟨by decide, by decide⟩, ⟨by decide, by decide⟩⟩

/-! ### Claim C6 -/

theorem jsSplitWs_nows_singleton (w : String) (h : ∀ c ∈ w.data, isWsChar c = false) :
    jsSplitWs w = [w] := by
  unfold jsSplitWs
  rw [jsSplitWsGo_nows w.data [] h]
  cases w with
  | mk l => simp

/-- C6 counterexample: chunking the empty text does not yield zero
chunks; it yields exactly one chunk whose text is empty, because
`"".split(/\s+/)` is `[""]` in JavaScript. -/
theorem chunkText_empty_not_zero_chunks :
    chunkText "" 512 64 ≠ [] ∧
    chunkText "" 512 64 = [{ text := "", tokenCount := 2 }] := by
  constructor
  · decide
  · decide

/-- C6 (amended): chunking the empty text yields exactly one chunk with
empty text (`"".split(/\s+/)` is `[""]`, so the window still runs
once); a single-word text (non-empty, holding no JavaScript `\s`
whitespace character) yields exactly one chunk carrying that word; and
for every non-empty text no produced chunk has empty text — the loop
stops once the remaining tail would be covered by the overlap of the
next window, so an empty trailing chunk is never emitted. -/
theorem chunkText_edge_cases :
    (chunkText "" 512 64 = [{ text := "", tokenCount := 2 }]) ∧
    (∀ w : String, w ≠ "" → (∀ c ∈ w.data, isWsChar c = false) →
      chunkText w 512 64 = [{ text := w, tokenCount := 2 }]) ∧
    (∀ text : String, text ≠ "" → ∀ c ∈ chunkText text 512 64, c.text ≠ "") := by
  refine ⟨by decide, ?_, ?_⟩
  · intro w hne hws
    unfold chunkText
    rw [jsSplitWs_nows_singleton w hws]
    simp [chunkTextGo, jsSlice, jsSliceClamp, joinSpace, tokenCeil, wordsFloor]
  · intro text hne c hc
    have hW : jsSplitWs text ≠ [""] := by
      intro h
      exact hne (jsSplitWs_eq_empty_singleton text h)
    have h384 : wordsFloor 512 = 384 := rfl
    have h48 : wordsFloor 64 = 48 := rfl
    unfold chunkText at hc
    rw [h384, h48] at hc
    exact chunkTextGo_text_ne_empty (jsSplitWs text) hW
      ((jsSplitWs text).length + 1) 0 (Or.inl rfl) c hc

/-- Witness for the amended chunking theorem at the single word
`"hello"`. -/
theorem chunkText_edge_cases_witness :
    (chunkText "hello" 512 64 = [{ text := "hello", tokenCount := 2 }]) ∧
    (∀ c ∈ chunkText "hello" 512 64, c.text ≠ "") :=
  ⟨chunkText_edge_cases.2.1 "hello" (by decide) (by decide),
   chunkText_edge_cases.2.2 "hello" (by decide)⟩

/-! ### Claim C8 -/

/-- Concrete image-document message for the mode-equivalence
counterexample. -/
def w8Msg : ProcessingQueueMessage :=
  ⟨"document_uploaded", 7, "w1", "u1", "k", "image/png"⟩

/-- Concrete oracle whose vision model extracts text from the image. -/
def w8Ora : PipelineOracle :=
  ⟨⟨Except.ok "hello from image", Except.ok ""⟩, fun _ => Except.ok [3],
   Except.ok [], Except.ok (), 7⟩

/-- Concrete state holding the image document. -/
def w8St : St :=
  ⟨⟨[⟨7, "w1", "u1", "img.png", "k", none, "h", "image/png", 5, "pending", none, 0, 0⟩],
    [], [], []⟩, [], [("k", "BYTES")], [], 60⟩

/-- C8 counterexample: the repository's variant worker entry point
(`src/unnamed/part_003`) gives its queue consumer a local pipeline
whose text extraction differs from the shared one, so queued mode under
that consumer is a behavioral fork: on an image document the shared
pipeline (used by the main entry's consumer and by the inline upload
path) stores the vision-extracted text, the variant stores a
placeholder, and the two final states differ. -/
theorem queued_variant_behavioral_fork :
    queueConsumeVariant [w8Msg] w8Ora w8St ≠ queueConsume [w8Msg] w8Ora w8St ∧
    filesGet (queueConsume [w8Msg] w8Ora w8St).files "text/7.txt"
      = some "hello from image" ∧
    filesGet (queueConsumeVariant [w8Msg] w8Ora w8St).files "text/7.txt"
      = some "[Document content - image/png]" := by
  have h1 : filesGet (queueConsume [w8Msg] w8Ora w8St).files "text/7.txt"
      = some "hello from image" := by decide
  have h2 : filesGet (queueConsumeVariant [w8Msg] w8Ora w8St).files "text/7.txt"
      = some "[Document content - image/png]" := by decide
  refine ⟨?_, h1, h2⟩
  intro heq
  rw [heq, h1] at h2
  simp at h2

/-- C8 (amended): the queue consumer of the main worker entry point
invokes the shared `processDocument` for each `document_uploaded`
message — the identical function the inline upload branch awaits — so
for those two modes the choice is purely scheduling; the variant
entry's consumer invokes its local pipeline, which coincides with the
shared one exactly on `text/plain` documents (its extraction differs on
every other mime type). -/
theorem queued_inline_same_pipeline :
    (∀ (msg : ProcessingQueueMessage) (ora : PipelineOracle) (st : St),
      msg.type = "document_uploaded" →
      queueConsume [msg] ora st = processDocument msg ora st) ∧
    (∀ (msg : ProcessingQueueMessage) (ora : PipelineOracle) (st : St),
      msg.type = "document_uploaded" →
      queueConsumeVariant [msg] ora st = processDocumentVariant msg ora st) ∧
    (∀ (data : ProcessingQueueMessage) (ora : PipelineOracle) (st : St),
      data.mime_type = "text/plain" →
      processDocumentVariant data ora st = processDocument data ora st) := by
  refine ⟨?_, ?_, ?_⟩
  · intro msg ora st h
    simp [queueConsume, h]
  · intro msg ora st h
    simp [queueConsumeVariant, h]
  · intro data ora st h
    unfold processDocument processDocumentVariant
    rw [h]
    simp [extractText, extractTextVariant]

/-- Witness for the mode-equivalence theorem at a concrete `text/plain`
document. -/
theorem queued_inline_same_pipeline_witness :
    queueConsume [wMsg] wOraOk wSt = processDocument wMsg wOraOk wSt ∧
    processDocumentVariant wMsg wOraOk wSt = processDocument wMsg wOraOk wSt :=
  ⟨queued_inline_same_pipeline.1 wMsg wOraOk wSt rfl,
   queued_inline_same_pipeline.2.2 wMsg wOraOk wSt rfl⟩

/-! ### Claim C7 -/

/-- Concrete documents table for the chat-retrieval theorems. -/
def w7Db : Db :=
  ⟨[⟨1, "w1", "u1", "A", "f1", none, "h", "text/plain", 5, "ready", none, 0, 0⟩],
   [], [], []⟩

/-- Concrete vector-query oracle returning two chunks of the same
document. -/
def w7Vq : Nat → String → List VMatch :=
  fun _ _ => [⟨(1, 0), some 9, some 1, some "x"⟩, ⟨(1, 1), some 8, some 1, some "y"⟩]

/-- C7 counterexample: `retrieveContext` does not deduplicate the
source list to one entry per document — two matches of the same
document each yield a source entry (the second with the cached title),
so the claim's "one entry per document" fails. -/
theorem retrieve_context_not_one_entry_per_document :
    ((retrieveContext w7Vq "w1" w7Db).filter (fun s => s.document_id = 1)).length = 2 ∧
    retrieveContext w7Vq "w1" w7Db
      = [⟨1, "A", (1, 0), "x", 9⟩, ⟨1, "A", (1, 1), "y", 8⟩] := by
  exact ⟨by decide, by decide⟩

theorem retrieveContextGo_inv (db : Db) :
    ∀ (ms : List VMatch) (seen : List Nat) (sources : List ChatSource),
      seen.length ≤ 5 →
      (∀ s ∈ sources, s.document_id ∈ seen) →
      (∀ d ∈ seen, ∃ s ∈ sources, s.document_id = d) →
      (∀ s ∈ sources, s.document_title = titleLookup db s.document_id) →
      ∃ seen' : List Nat, seen'.length ≤ 5 ∧
        (∀ s ∈ retrieveContextGo db ms seen sources, s.document_id ∈ seen') ∧
        (∀ s ∈ retrieveContextGo db ms seen sources,
          s.document_title = titleLookup db s.document_id) := by
  intro ms
  induction ms with
  | nil =>
    intro seen sources h5 hin _ htitle
    exact ⟨seen, h5, by simpa [retrieveContextGo] using hin,
      by simpa [retrieveContextGo] using htitle⟩
  | cons m rest ih =>
    intro seen sources h5 hin hcov htitle
    rw [retrieveContextGo]
    cases m.document_id with
    | none => exact ih seen sources h5 hin hcov htitle
    | some docId =>
      simp only
      by_cases hskip : (5 ≤ seen.length && ¬ seen.contains docId) = true
      · rw [if_pos hskip]
        exact ih seen sources h5 hin hcov htitle
      · rw [if_neg hskip]
        by_cases hseen : seen.contains docId = true
        · rw [if_pos hseen]
          simp only
          have hmem : docId ∈ seen := by simpa using hseen
          obtain ⟨s0, hs0m, hs0id⟩ := hcov docId hmem
          have hfind : (sources.find? (fun s => s.document_id = docId)).isSome := by
            rw [List.find?_isSome]
            exact ⟨s0, hs0m, by simp [hs0id]⟩
          obtain ⟨s1, hs1⟩ := Option.isSome_iff_exists.mp hfind
          have hs1m : s1 ∈ sources := List.mem_of_find?_eq_some hs1
          have hs1id : s1.document_id = docId := by
            have := List.find?_some hs1
            simpa using this
          have htitle1 : s1.document_title = titleLookup db docId := by
            rw [htitle s1 hs1m, hs1id]
          apply ih
          · exact h5
          · intro s hs
            rcases List.mem_append.mp hs with hold | hnew
            · exact hin s hold
            · simp only [List.mem_singleton] at hnew
              subst hnew
              exact hmem
          · intro d hd
            obtain ⟨s2, hs2m, hs2id⟩ := hcov d hd
            exact ⟨s2, List.mem_append_left _ hs2m, hs2id⟩
          · intro s hs
            rcases List.mem_append.mp hs with hold | hnew
            · exact htitle s hold
            · simp only [List.mem_singleton] at hnew
              subst hnew
              simp only
              rw [hs1]
              simpa using htitle1
        · rw [if_neg hseen]
          simp only
          have hlen : seen.length ≤ 4 := by
            by_contra hlen
            apply hskip
            simp only [Bool.and_eq_true]
            exact ⟨by simpa using Nat.le_of_lt_succ (by omega), by simpa using hseen⟩
          apply ih
          · simp only [List.length_append, List.length_singleton]
            omega
          · intro s hs
            rcases List.mem_append.mp hs with hold | hnew
            · exact List.mem_append_left _ (hin s hold)
            · simp only [List.mem_singleton] at hnew
              subst hnew
              simp
          · intro d hd
            rcases List.mem_append.mp hd with hold | hnew
            · obtain ⟨s2, hs2m, hs2id⟩ := hcov d hold
              exact ⟨s2, List.mem_append_left _ hs2m, hs2id⟩
            · simp only [List.mem_singleton] at hnew
              subst hnew
              exact ⟨_, List.mem_append_right _ (List.mem_singleton_self _), rfl⟩
          · intro s hs
            rcases List.mem_append.mp hs with hold | hnew
            · exact htitle s hold
            · simp only [List.mem_singleton] at hnew
              subst hnew
              simp

/-- C7 (amended): the context retrieval of a chat turn queries the
vector index with `topK = 10` scoped to the session's workspace; the
returned source list draws on at most five distinct documents (a match
that would introduce a sixth is skipped), and every source entry's
title resolves to its document's title (fetched once per document and
reused from the first pushed source afterwards).  The list is however
not deduplicated by document: each surviving match contributes its own
entry. -/
theorem retrieve_context_topk_cap_titles (vq : Nat → String → List VMatch)
    (ws : String) (db : Db) :
    (retrieveContext vq ws db = retrieveContextGo db (vq 10 ws) [] []) ∧
    (∃ docIds : List Nat, docIds.length ≤ 5 ∧
      ∀ s ∈ retrieveContext vq ws db, s.document_id ∈ docIds) ∧
    (∀ s ∈ retrieveContext vq ws db, s.document_title = titleLookup db s.document_id) := by
  obtain ⟨seen', h5, hin, htitle⟩ := retrieveContextGo_inv db (vq 10 ws) [] []
    (by simp) (by simp) (by simp) (by simp)
  exact ⟨rfl, ⟨seen', h5, hin⟩, htitle⟩

/-- Witness for the context-retrieval theorem: the first source of the
concrete run resolves to the document's stored title. -/
theorem retrieve_context_topk_cap_titles_witness :
    ({ document_id := 1, document_title := "A", chunk_id := (1, 0), text_snippet := "x",
       relevance_score := 9 } : ChatSource).document_title = titleLookup w7Db 1 :=
  (retrieve_context_topk_cap_titles w7Vq "w1" w7Db).2.2
    ⟨1, "A", (1, 0), "x", 9⟩ (by decide)

/-! ### Lemmas about the comparator sort and the search pipelines -/

theorem mem_insertCmp {α : Type} (cmp : α → α → Int) (x a : α) :
    ∀ l : List α, a ∈ insertCmp cmp x l ↔ a = x ∨ a ∈ l := by
  intro l
  induction l with
  | nil => simp [insertCmp]
  | cons y ys ih =>
    rw [insertCmp]
    by_cases h : cmp x y ≤ 0
    · rw [if_pos h]
      simp [List.mem_cons]
    · rw [if_neg h]
      simp only [List.mem_cons, ih]
      tauto

theorem mem_sortByCmp {α : Type} (cmp : α → α → Int) (a : α) :
    ∀ l : List α, a ∈ sortByCmp cmp l ↔ a ∈ l := by
  intro l
  induction l with
  | nil => simp [sortByCmp]
  | cons x xs ih =>
    rw [sortByCmp, mem_insertCmp, ih]
    simp

theorem length_insertCmp {α : Type} (cmp : α → α → Int) (x : α) :
    ∀ l : List α, (insertCmp cmp x l).length = l.length + 1 := by
  intro l
  induction l with
  | nil => simp [insertCmp]
  | cons y ys ih =>
    rw [insertCmp]
    by_cases h : cmp x y ≤ 0
    · rw [if_pos h]
      simp
    · rw [if_neg h]
      simp [ih]

theorem length_sortByCmp {α : Type} (cmp : α → α → Int) :
    ∀ l : List α, (sortByCmp cmp l).length = l.length := by
  intro l
  induction l with
  | nil => simp [sortByCmp]
  | cons x xs ih => rw [sortByCmp, length_insertCmp, ih, List.length_cons]

theorem pairwise_insertCmp {α : Type} (cmp : α → α → Int) (P : α → Prop)
    (htot : ∀ a b, P a → P b → cmp a b ≤ 0 ∨ cmp b a ≤ 0)
    (htrans : ∀ a b c, P a → P b → P c → cmp a b ≤ 0 → cmp b c ≤ 0 → cmp a c ≤ 0)
    (x : α) (hx : P x) :
    ∀ l : List α, (∀ y ∈ l, P y) → l.Pairwise (fun a b => cmp a b ≤ 0) →
      (insertCmp cmp x l).Pairwise (fun a b => cmp a b ≤ 0) := by
  intro l
  induction l with
  | nil => intro _ _; simp [insertCmp]
  | cons y ys ih =>
    intro hP hl
    rw [List.pairwise_cons] at hl
    rw [insertCmp]
    by_cases h : cmp x y ≤ 0
    · rw [if_pos h]
      rw [List.pairwise_cons]
      constructor
      · intro b hb
        rcases List.mem_cons.mp hb with hb | hb
        · rw [hb]; exact h
        · exact htrans x y b hx (hP y (List.mem_cons_self y ys))
            (hP b (List.mem_cons_of_mem y hb)) h (hl.1 b hb)
      · exact List.pairwise_cons.mpr hl
    · rw [if_neg h]
      rw [List.pairwise_cons]
      constructor
      · intro b hb
        rcases (mem_insertCmp cmp x b ys).mp hb with hb | hb
        · rw [hb]
          rcases htot x y hx (hP y (List.mem_cons_self y ys)) with hxy | hyx
          · exact absurd hxy h
          · exact hyx
        · exact hl.1 b hb
      · exact ih (fun z hz => hP z (List.mem_cons_of_mem y hz)) hl.2

theorem pairwise_sortByCmp {α : Type} (cmp : α → α → Int) (P : α → Prop)
    (htot : ∀ a b, P a → P b → cmp a b ≤ 0 ∨ cmp b a ≤ 0)
    (htrans : ∀ a b c, P a → P b → P c → cmp a b ≤ 0 → cmp b c ≤ 0 → cmp a c ≤ 0) :
    ∀ l : List α, (∀ y ∈ l, P y) →
      (sortByCmp cmp l).Pairwise (fun a b => cmp a b ≤ 0) := by
  intro l
  induction l with
  | nil => intro _; simp [sortByCmp]
  | cons x xs ih =>
    intro hP
    rw [sortByCmp]
    exact pairwise_insertCmp cmp P htot htrans x (hP x (List.mem_cons_self x xs))
      (sortByCmp cmp xs)
      (fun y hy => hP y (List.mem_cons_of_mem x ((mem_sortByCmp cmp y xs).mp hy)))
      (ih (fun y hy => hP y (List.mem_cons_of_mem x hy)))

theorem mem_enrichDocuments (db : Db) (docs : List DocumentRow)
    (r : DocumentSearchResult) (h : r ∈ enrichDocuments db docs) :
    ∃ d ∈ docs, r.id = d.id ∧ r.created_at = d.created_at
      ∧ r.relevance_score = none := by
  unfold enrichDocuments at h
  rw [List.mem_map] at h
  obtain ⟨d, hd, hr⟩ := h
  exact ⟨d, hd, by rw [← hr], by rw [← hr], by rw [← hr]⟩

/-! ### Claims C9 and C10 -/

/-- C9: `has_more` of the faceted search is computed from the
over-fetched `limit + 1` rows at the given offset (never from the
separate count query), and it is true exactly when the matching result
set has more than `offset + limit` rows; the combined search fetches
the whole candidate set and reports `has_more` exactly when it exceeds
`limit` (it honours no offset). -/
theorem has_more_overfetch (db : Db) (wsIds : List String) (req : SearchRequest)
    (vq : Nat → List VMatch) :
    ((handleFacetedSearch db wsIds req).has_more = true ↔
      (db.documents.filter (facetedWhere db wsIds req)).length
        > effOffset req + effLimit req) ∧
    ((handleCombinedSearch db wsIds req vq).has_more = true ↔
      (db.documents.filter (combinedWhere db wsIds req
        (if hasQueryStr req then
          (collectSemantic (vq (effLimit req * 3)) [] []).1
         else []))).length > effLimit req) := by
  constructor
  · unfold handleFacetedSearch
    by_cases hws : wsIds.isEmpty
    · rw [if_pos hws]
      simp only
      have hnil : db.documents.filter (facetedWhere db wsIds req) = [] := by
        rw [List.filter_eq_nil_iff]
        intro d _
        have : wsIds = [] := List.isEmpty_iff.mp hws
        simp [facetedWhere, this]
      rw [hnil]
      simp
    · rw [if_neg hws]
      simp only [decide_eq_true_eq]
      have hlen : (sortByCmp createdDescCmpRow
          (db.documents.filter (facetedWhere db wsIds req))).length
          = (db.documents.filter (facetedWhere db wsIds req)).length :=
        length_sortByCmp _ _
      constructor
      · intro h
        rw [List.length_take, List.length_drop, hlen] at h
        omega
      · intro h
        rw [List.length_take, List.length_drop, hlen]
        omega
  · unfold handleCombinedSearch
    by_cases hws : wsIds.isEmpty
    · rw [if_pos hws]
      simp only
      have hnil : ∀ ids, db.documents.filter (combinedWhere db wsIds req ids) = [] := by
        intro ids
        rw [List.filter_eq_nil_iff]
        intro d _
        have : wsIds = [] := List.isEmpty_iff.mp hws
        simp [combinedWhere, this]
      rw [hnil]
      simp
    · rw [if_neg hws]
      simp only [decide_eq_true_eq]
      by_cases hq : hasQueryStr req
      · rw [if_pos hq, if_pos hq]
        have hlen : (sortByCmp combinedCmp
            ((enrichDocuments db (db.documents.filter (combinedWhere db wsIds req
              (collectSemantic (vq (effLimit req * 3)) [] []).1))).map
              (fun r => { r with relevance_score :=
                (((collectSemantic (vq (effLimit req * 3)) [] []).2.find?
                  (fun p => p.1 = r.id)).map (fun p => p.2)) }))).length
            = (db.documents.filter (combinedWhere db wsIds req
                (collectSemantic (vq (effLimit req * 3)) [] []).1)).length := by
          rw [length_sortByCmp, List.length_map]
          unfold enrichDocuments
          rw [List.length_map]
        rw [hlen]
      · rw [if_neg hq, if_neg hq]
        simp only [decide_eq_true_eq]
        have hlen : (sortByCmp combinedCmp
            ((enrichDocuments db (db.documents.filter (combinedWhere db wsIds req
              (([], []) : List Nat × List (Nat × Int)).1))).map
              (fun r => { r with relevance_score :=
                (((([], []) : List Nat × List (Nat × Int)).2.find?
                  (fun p => p.1 = r.id)).map (fun p => p.2)) }))).length
            = (db.documents.filter (combinedWhere db wsIds req
                (([], []) : List Nat × List (Nat × Int)).1)).length := by
          rw [length_sortByCmp, List.length_map]
          unfold enrichDocuments
          rw [List.length_map]
        rw [hlen]

theorem collectSemantic_fst :
    ∀ (ms : List VMatch) (ids : List Nat) (scores : List (Nat × Int)),
      ids = scores.map Prod.fst →
      (collectSemantic ms ids scores).1 = (collectSemantic ms ids scores).2.map Prod.fst := by
  intro ms
  induction ms with
  | nil => intro ids scores h; simpa [collectSemantic] using h
  | cons m rest ih =>
    intro ids scores h
    rw [collectSemantic]
    cases m.document_id with
    | none => exact ih ids scores h
    | some docId =>
      simp only
      by_cases hmem : (scores.any (fun p => p.1 = docId)) = true
      · rw [if_pos hmem]
        exact ih ids scores h
      · rw [if_neg hmem]
        apply ih
        rw [List.map_append, h]
        rfl

/-- The ordering relation the combined-search claim asserts on adjacent
results: score descending between scored results, creation date
descending between unscored results, and never an unscored result
before a scored one. -/
def resultOrder (a b : DocumentSearchResult) : Prop :=
  match a.relevance_score, b.relevance_score with
  | some x, some y => y ≤ x
  | none, none => b.created_at ≤ a.created_at
  | some _, none => True
  | none, some _ => False

/-- If every element of a list is scored, or none is, then sorting it
with the combined-search comparator and taking a prefix yields a list
pairwise ordered by `resultOrder`. -/
theorem pairwise_resultOrder_of_homogeneous (l : List DocumentSearchResult)
    (h : (∀ r ∈ l, (r.relevance_score).isSome = true) ∨
         (∀ r ∈ l, r.relevance_score = none)) (n : Nat) :
    ((sortByCmp combinedCmp l).take n).Pairwise resultOrder := by
  rcases h with hall | hall
  · have hpw := pairwise_sortByCmp combinedCmp
      (fun r => (r.relevance_score).isSome = true)
      (by
        intro a b ha hb
        rcases Option.isSome_iff_exists.mp ha with ⟨xa, hxa⟩
        rcases Option.isSome_iff_exists.mp hb with ⟨xb, hxb⟩
        simp only [combinedCmp, hxa, hxb]
        omega)
      (by
        intro a b c ha hb hc
        rcases Option.isSome_iff_exists.mp ha with ⟨xa, hxa⟩
        rcases Option.isSome_iff_exists.mp hb with ⟨xb, hxb⟩
        rcases Option.isSome_iff_exists.mp hc with ⟨xc, hxc⟩
        simp only [combinedCmp, hxa, hxb, hxc]
        omega)
      l hall
    have hpw2 := hpw.sublist (List.take_sublist n _)
    apply hpw2.imp_of_mem
    intro a b hamem hbmem hle
    have haP := hall a ((mem_sortByCmp _ _ _).mp (List.mem_of_mem_take hamem))
    have hbP := hall b ((mem_sortByCmp _ _ _).mp (List.mem_of_mem_take hbmem))
    rcases Option.isSome_iff_exists.mp haP with ⟨xa, hxa⟩
    rcases Option.isSome_iff_exists.mp hbP with ⟨xb, hxb⟩
    simp only [combinedCmp, hxa, hxb] at hle
    simp only [resultOrder, hxa, hxb]
    omega
  · have hpw := pairwise_sortByCmp combinedCmp
      (fun r => r.relevance_score = none)
      (by
        intro a b ha hb
        simp only [combinedCmp, ha, hb]
        omega)
      (by
        intro a b c ha hb hc
        simp only [combinedCmp, ha, hb, hc]
        omega)
      l hall
    have hpw2 := hpw.sublist (List.take_sublist n _)
    apply hpw2.imp_of_mem
    intro a b hamem hbmem hle
    have haP := hall a ((mem_sortByCmp _ _ _).mp (List.mem_of_mem_take hamem))
    have hbP := hall b ((mem_sortByCmp _ _ _).mp (List.mem_of_mem_take hbmem))
    simp only [combinedCmp, haP, hbP] at hle
    simp only [resultOrder, haP, hbP]
    omega

/-! ### Claim C2 -/

/-- C2: in a combined search with a query string and a tag filter,
every returned document carries at least one tag whose name is in the
filter, and the returned list is ordered as claimed: scored documents
by score descending, unscored documents by creation date descending,
and no unscored document before a scored one.  (Within one response the
results are in fact homogeneous: when the vector index returned
candidates every result carries a score, otherwise none does.) -/
theorem combined_search_tag_filter_and_ordering (db : Db) (wsIds : List String)
    (req : SearchRequest) (vq : Nat → List VMatch)
    (hq : hasQueryStr req = true) (ht : effTags req ≠ []) :
    (∀ r ∈ (handleCombinedSearch db wsIds req vq).documents,
      ∃ dt ∈ db.document_tags, dt.document_id = r.id ∧
        ∃ t ∈ db.tags, t.id = dt.tag_id ∧ t.name ∈ effTags req) ∧
    (handleCombinedSearch db wsIds req vq).documents.Pairwise resultOrder := by
  unfold handleCombinedSearch
  by_cases hws : wsIds.isEmpty
  · rw [if_pos hws]
    constructor
    · intro r hr
      simp at hr
    · simp
  · rw [if_neg hws]
    simp only
    rw [if_pos hq]
    constructor
    · intro r hr
      have hr2 := (mem_sortByCmp _ _ _).mp (List.mem_of_mem_take hr)
      rw [List.mem_map] at hr2
      obtain ⟨e, he, hre⟩ := hr2
      obtain ⟨d, hd, hid, _, _⟩ := mem_enrichDocuments db _ e he
      rw [List.mem_filter] at hd
      have hw := hd.2
      simp only [combinedWhere, Bool.and_eq_true, Bool.or_eq_true,
        decide_eq_true_eq] at hw
      rcases hw.1.1.1.2 with hempty | hany
      · exact absurd (List.isEmpty_iff.mp hempty) ht
      · rw [List.any_eq_true] at hany
        obtain ⟨dt, hdt, hdtprop⟩ := hany
        simp only [Bool.and_eq_true, decide_eq_true_eq, List.any_eq_true] at hdtprop
        obtain ⟨hdtid, t, htmem, htid, hcont⟩ := hdtprop
        have hrid : r.id = d.id := by
          rw [← hre]
          simpa using hid
        exact ⟨dt, hdt, by rw [hrid]; exact hdtid, t, htmem, htid, by simpa using hcont⟩
    · apply pairwise_resultOrder_of_homogeneous
      have hfst : (collectSemantic (vq (effLimit req * 3)) [] []).1
          = (collectSemantic (vq (effLimit req * 3)) [] []).2.map Prod.fst :=
        collectSemantic_fst _ [] [] rfl
      by_cases hsem1 : (collectSemantic (vq (effLimit req * 3)) [] []).1 = []
      · right
        intro r hr
        rw [List.mem_map] at hr
        obtain ⟨e, _, hre⟩ := hr
        have hsem2 : (collectSemantic (vq (effLimit req * 3)) [] []).2 = [] := by
          rw [hsem1] at hfst
          exact List.map_eq_nil_iff.mp hfst.symm
        rw [← hre]
        simp [hsem2]
      · left
        intro r hr
        rw [List.mem_map] at hr
        obtain ⟨e, he, hre⟩ := hr
        obtain ⟨d, hd, hid, _, _⟩ := mem_enrichDocuments db _ e he
        rw [List.mem_filter] at hd
        have hw := hd.2
        simp only [combinedWhere, Bool.and_eq_true, Bool.or_eq_true,
          decide_eq_true_eq] at hw
        rcases hw.1.1.1.1.2 with hempty | hcont
        · exact absurd (List.isEmpty_iff.mp hempty) hsem1
        · have hdmem : d.id ∈ (collectSemantic (vq (effLimit req * 3)) [] []).1 := by
            simpa using hcont
          rw [hfst, List.mem_map] at hdmem
          obtain ⟨p, hp, hpd⟩ := hdmem
          have hfind : (((collectSemantic (vq (effLimit req * 3)) [] []).2.find?
              (fun q => decide (q.1 = d.id)))).isSome = true := by
            rw [List.find?_isSome]
            exact ⟨p, hp, by simp [hpd]⟩
          rw [← hre]
          simp only
          rw [hid]
          rcases Option.isSome_iff_exists.mp hfind with ⟨p2, hp2⟩
          rw [hp2]
          simp

/-- Concrete database for the search witnesses: two ready documents in
workspace `w1`, both tagged `acme`. -/
def w2Db : Db :=
  ⟨[⟨1, "w1", "u1", "Doc1", "f1", none, "h1", "text/plain", 5, "ready", none, 10, 10⟩,
    ⟨2, "w1", "u1", "Doc2", "f2", none, "h2", "text/plain", 5, "ready", none, 5, 5⟩],
   [⟨4, "w1", "acme", none, 2, 0⟩],
   [⟨1, 4, "user_added", none, 0⟩, ⟨2, 4, "user_added", none, 0⟩],
   []⟩

/-- Concrete combined-search request: query string and tag filter. -/
def w2Req : SearchRequest :=
  ⟨some "invoice", some ["acme"], none, none, none, none, none⟩

/-- Concrete vector-query oracle: both documents match, the second with
the higher score. -/
def w2Vq : Nat → List VMatch :=
  fun _ => [⟨(1, 0), some 5, some 1, some "x"⟩, ⟨(2, 0), some 9, some 2, some "y"⟩]

/-- Witness for the combined-search theorem: the top result of the
concrete run indeed carries the filtered tag. -/
theorem combined_search_tag_filter_and_ordering_witness :
    ∃ dt ∈ w2Db.document_tags,
      dt.document_id =
        ((⟨2, "Doc2", "", [(4, "acme", none)], some 9, 5⟩ : DocumentSearchResult)).id ∧
      ∃ t ∈ w2Db.tags, t.id = dt.tag_id ∧ t.name ∈ effTags w2Req :=
  (combined_search_tag_filter_and_ordering w2Db ["w1"] w2Req w2Vq
    (by decide) (by decide)).1
    ⟨2, "Doc2", "", [(4, "acme", none)], some 9, 5⟩ (by decide)

/-! ### Claim C10 -/

/-- C10: every document returned by the faceted search and by the
combined search has status `ready` in the store — both `WHERE` clauses
carry the `d.status = 'ready'` conjunct, so `pending`, `processing` and
`error` documents never appear. -/
theorem search_results_only_ready (db : Db) (wsIds : List String)
    (req : SearchRequest) (vq : Nat → List VMatch) :
    (∀ r ∈ (handleFacetedSearch db wsIds req).documents,
      ∃ d ∈ db.documents, d.id = r.id ∧ d.status = "ready") ∧
    (∀ r ∈ (handleCombinedSearch db wsIds req vq).documents,
      ∃ d ∈ db.documents, d.id = r.id ∧ d.status = "ready") := by
  constructor
  · unfold handleFacetedSearch
    by_cases hws : wsIds.isEmpty
    · rw [if_pos hws]
      intro r hr
      simp at hr
    · rw [if_neg hws]
      intro r hr
      simp only at hr
      obtain ⟨d, hd, hid, _, _⟩ := mem_enrichDocuments db _ r hr
      have hd2 := (mem_sortByCmp _ _ _).mp
        (List.mem_of_mem_drop (List.mem_of_mem_take (List.mem_of_mem_take hd)))
      rw [List.mem_filter] at hd2
      have hw := hd2.2
      simp only [facetedWhere, Bool.and_eq_true, decide_eq_true_eq] at hw
      exact ⟨d, hd2.1, hid.symm, hw.1.1.1.1.1.2⟩
  · unfold handleCombinedSearch
    by_cases hws : wsIds.isEmpty
    · rw [if_pos hws]
      intro r hr
      simp at hr
    · rw [if_neg hws]
      intro r hr
      simp only at hr
      have hr2 := (mem_sortByCmp _ _ _).mp (List.mem_of_mem_take hr)
      rw [List.mem_map] at hr2
      obtain ⟨e, he, hre⟩ := hr2
      obtain ⟨d, hd, hid, _, _⟩ := mem_enrichDocuments db _ e he
      rw [List.mem_filter] at hd
      have hw := hd.2
      simp only [combinedWhere, Bool.and_eq_true, decide_eq_true_eq] at hw
      refine ⟨d, hd.1, ?_, hw.1.1.1.1.1.2⟩
      rw [← hre]
      simpa using hid.symm

/-- Witness for the ready-status theorem at the concrete database: the
returned top document resolves to the ready row `Doc2`. -/
theorem search_results_only_ready_witness :
    ∃ d ∈ w2Db.documents,
      d.id = ((⟨2, "Doc2", "", [(4, "acme", none)], some 9, 5⟩ :
        DocumentSearchResult)).id ∧ d.status = "ready" :=
  (search_results_only_ready w2Db ["w1"] w2Req w2Vq).2
    ⟨2, "Doc2", "", [(4, "acme", none)], some 9, 5⟩ (by decide)


/-- If two lists agree under `g` and the predicate factors through `g`,
their `find?` results agree under `g`. -/
theorem find?_map_congr {α β : Type} (g : α → β) (p : α → Bool) (q : β → Bool)
    (hpq : ∀ a, p a = q (g a)) :
    ∀ (l₁ l₂ : List α), l₁.map g = l₂.map g →
      (l₁.find? p).map g = (l₂.find? p).map g := by
  intro l₁
  induction l₁ with
  | nil =>
    intro l₂ h
    cases l₂ with
    | nil => rfl
    | cons b t => simp at h
  | cons a t ih =>
    intro l₂ h
    cases l₂ with
    | nil => simp at h
    | cons b t₂ =>
      simp only [List.map_cons, List.cons.injEq] at h
      obtain ⟨hab, ht⟩ := h
      have hp : p a = p b := by rw [hpq a, hpq b, hab]
      cases hpa : p a with
      | true =>
        have hpb : p b = true := by rw [← hp]; exact hpa
        rw [List.find?_cons_of_pos _ hpa, List.find?_cons_of_pos _ hpb]
        simp [hab]
      | false =>
        have hpb : p b = false := by rw [← hp]; exact hpa
        rw [List.find?_cons_of_neg _ (by simp [hpa]),
          List.find?_cons_of_neg _ (by simp [hpb])]
        exact ih t₂ ht

/-- `uploadFile` on a state that already holds a row with the same
`(workspace_id, content_hash)`: the duplicate short-circuit. -/
theorem uploadFile_found (file : FileUpload) (ws user : String) (env : UploadEnv)
    (st : St) (e : DocumentRow)
    (hfind : st.db.documents.find? (fun d =>
        d.workspace_id = ws ∧ d.content_hash = env.hash file.content) = some e) :
    uploadFile file ws user env st
      = (Except.ok ⟨e.id, e.title, "duplicate", env.ora.now⟩,
         { st with nextId := st.nextId + 1 }) := by
  unfold uploadFile
  simp only
  rw [hfind]

/-- Restating the id consumption of the pipeline with an equational
hypothesis, so that it applies to goals whose state is a literal. -/
theorem processDocument_nextId_le_of_eq (data : ProcessingQueueMessage)
    (ora : PipelineOracle) (st : St) (n : Nat) (h : st.nextId = n) :
    n ≤ (processDocument data ora st).nextId :=
  h ▸ processDocument_nextId_le data ora st

/-- A document row carrying exactly the `docKey` fields of the row that
`uploadFile` inserts; the remaining fields are irrelevant. -/
def uploadKeyRow (docId : Nat) (ws title hash : String) : DocumentRow :=
  ⟨docId, ws, "", title, "", none, hash, "", 0, "", none, 0, 0⟩

/-- `uploadFile` on a fresh `(workspace_id, content_hash)` with an
allowed mime type: the response shape, the `docKey` image of the new
documents table and the id consumption, covering both the queued and
the inline mode. -/
theorem uploadFile_created (file : FileUpload) (ws user : String) (env : UploadEnv)
    (st : St)
    (hfind : st.db.documents.find? (fun d =>
        d.workspace_id = ws ∧ d.content_hash = env.hash file.content) = none)
    (hmime : (if file.fileType = "" then getMimeType file.name else file.fileType)
        ∈ allowedTypes) :
    (uploadFile file ws user env st).1
        = Except.ok ⟨st.nextId, file.name,
            if env.hasQueue then "pending" else "ready", env.ora.now⟩
      ∧ ((uploadFile file ws user env st).2).db.documents.map docKey
          = st.db.documents.map docKey
            ++ [(st.nextId, ws, file.name, env.hash file.content)]
      ∧ st.nextId + 1 ≤ ((uploadFile file ws user env st).2).nextId := by
  unfold uploadFile
  simp only
  rw [hfind]
  simp only
  rw [if_pos hmime]
  cases hq : env.hasQueue with
  | true =>
    refine ⟨by simp, ?_, by simp⟩
    simp [docKey]
  | false =>
    simp only [Bool.false_eq_true, if_false]
    refine ⟨trivial, ?_, ?_⟩
    · rw [processDocument_docKey]
      simp [docKey]
    · exact processDocument_nextId_le_of_eq _ env.ora _ _ rfl

/-- `uploadFile` rejects a mime type outside the whitelist. -/
theorem uploadFile_badMime (file : FileUpload) (ws user : String) (env : UploadEnv)
    (st : St)
    (hfind : st.db.documents.find? (fun d =>
        d.workspace_id = ws ∧ d.content_hash = env.hash file.content) = none)
    (hmime : ¬ (if file.fileType = "" then getMimeType file.name else file.fileType)
        ∈ allowedTypes) :
    (uploadFile file ws user env st).1
      = Except.error ("Unsupported file type: "
          ++ (if file.fileType = "" then getMimeType file.name else file.fileType)) := by
  unfold uploadFile
  simp only
  rw [hfind]
  simp only
  rw [if_neg hmime]

/-- C5: uploading byte-identical content twice into the same workspace
returns the original document id, with status `duplicate` and no new
document row on the repeat call, while uploading the same bytes into a
different workspace mints a fresh id and a second, distinct document
row. -/
theorem upload_dedup (file : FileUpload) (ws₁ ws₂ user : String)
    (env : UploadEnv) (st : St) (r₁ : DocumentUploadResponse)
    (h1 : (uploadFile file ws₁ user env st).1 = Except.ok r₁) :
    ((uploadFile file ws₁ user env (uploadFile file ws₁ user env st).2).1
        = Except.ok ⟨r₁.id, r₁.title, "duplicate", env.ora.now⟩
      ∧ ((uploadFile file ws₁ user env (uploadFile file ws₁ user env st).2).2).db.documents
          = ((uploadFile file ws₁ user env st).2).db.documents)
    ∧ (∀ r₂ : DocumentUploadResponse, ws₂ ≠ ws₁ → r₁.status ≠ "duplicate" →
        (∀ d ∈ st.db.documents,
          ¬ (d.workspace_id = ws₂ ∧ d.content_hash = env.hash file.content)) →
        (uploadFile file ws₂ user env (uploadFile file ws₁ user env st).2).1
          = Except.ok r₂ →
        r₂.id ≠ r₁.id ∧ r₂.status ≠ "duplicate"
        ∧ (∃ d₁ ∈ ((uploadFile file ws₂ user env
              (uploadFile file ws₁ user env st).2).2).db.documents,
            d₁.id = r₁.id ∧ d₁.workspace_id = ws₁
              ∧ d₁.content_hash = env.hash file.content)
        ∧ (∃ d₂ ∈ ((uploadFile file ws₂ user env
              (uploadFile file ws₁ user env st).2).2).db.documents,
            d₂.id = r₂.id ∧ d₂.workspace_id = ws₂
              ∧ d₂.content_hash = env.hash file.content)) := by
  cases hfind : st.db.documents.find? (fun d =>
      d.workspace_id = ws₁ ∧ d.content_hash = env.hash file.content) with
  | some e =>
    have hu := uploadFile_found file ws₁ user env st e hfind
    have hr₁ : DocumentUploadResponse.mk e.id e.title "duplicate" env.ora.now = r₁ := by
      rw [hu] at h1
      exact Except.ok.inj h1
    subst hr₁
    constructor
    · have hfind2 : ({ st with nextId := st.nextId + 1 } : St).db.documents.find?
          (fun d => d.workspace_id = ws₁ ∧ d.content_hash = env.hash file.content)
          = some e := hfind
      have hu2 := uploadFile_found file ws₁ user env
        { st with nextId := st.nextId + 1 } e hfind2
      rw [hu]
      rw [hu2]
      exact ⟨rfl, rfl⟩
    · intro r₂ hws hstat hnone h2
      exact absurd rfl hstat
  | none =>
    by_cases hmime : (if file.fileType = "" then getMimeType file.name else file.fileType)
        ∈ allowedTypes
    · obtain ⟨hresp, hdocs, hnext⟩ := uploadFile_created file ws₁ user env st hfind hmime
      rw [hresp] at h1
      have hr₁ := Except.ok.inj h1
      subst hr₁
      have hcmp := find?_map_congr docKey
        (fun d => decide (d.workspace_id = ws₁ ∧ d.content_hash = env.hash file.content))
        (fun k => decide (k.2.1 = ws₁ ∧ k.2.2.2 = env.hash file.content))
        (fun a => rfl)
        ((uploadFile file ws₁ user env st).2).db.documents
        (st.db.documents
          ++ [uploadKeyRow st.nextId ws₁ file.name (env.hash file.content)])
        (by rw [hdocs]; simp [docKey, uploadKeyRow])
      rw [List.find?_append, hfind] at hcmp
      have hsing : ([uploadKeyRow st.nextId ws₁ file.name (env.hash file.content)] :
          List DocumentRow).find? (fun d =>
            decide (d.workspace_id = ws₁ ∧ d.content_hash = env.hash file.content))
          = some (uploadKeyRow st.nextId ws₁ file.name (env.hash file.content)) :=
        List.find?_cons_of_pos _ (by simp [uploadKeyRow])
      rw [hsing] at hcmp
      simp only [Option.none_or] at hcmp
      have hfound : ∃ f, ((uploadFile file ws₁ user env st).2).db.documents.find?
          (fun d => d.workspace_id = ws₁ ∧ d.content_hash = env.hash file.content)
          = some f
          ∧ docKey f = (st.nextId, ws₁, file.name, env.hash file.content) := by
        cases hf : ((uploadFile file ws₁ user env st).2).db.documents.find?
            (fun d => d.workspace_id = ws₁ ∧ d.content_hash = env.hash file.content) with
        | none => rw [hf] at hcmp; simp at hcmp
        | some f =>
          rw [hf] at hcmp
          exact ⟨f, rfl, Option.some.inj hcmp⟩
      obtain ⟨f, hf, hkey⟩ := hfound
      simp only [docKey, Prod.mk.injEq] at hkey
      constructor
      · have hu2 := uploadFile_found file ws₁ user env
          (uploadFile file ws₁ user env st).2 f hf
        rw [hu2]
        refine ⟨?_, rfl⟩
        rw [hkey.1, hkey.2.2.1]
      · intro r₂ hws hstat hnone h2
        have hfind2 : ((uploadFile file ws₁ user env st).2).db.documents.find?
            (fun d => d.workspace_id = ws₂ ∧ d.content_hash = env.hash file.content)
            = none := by
          rw [List.find?_eq_none]
          intro x hx
          simp only [decide_eq_true_eq]
          intro hcontra
          have hmem : docKey x ∈ st.db.documents.map docKey
              ++ [((st.nextId, ws₁, file.name, env.hash file.content) :
                    Nat × String × String × String)] := by
            rw [← hdocs]
            exact List.mem_map_of_mem docKey hx
          rcases List.mem_append.mp hmem with hmem | hmem
          · obtain ⟨y, hy, hky⟩ := List.mem_map.mp hmem
            simp only [docKey, Prod.mk.injEq] at hky
            refine hnone y hy ⟨?_, ?_⟩
            · rw [hky.2.1]; exact hcontra.1
            · rw [hky.2.2.2]; exact hcontra.2
          · simp only [List.mem_singleton, docKey, Prod.mk.injEq] at hmem
            exact hws (by rw [← hcontra.1, hmem.2.1])
        obtain ⟨hresp2, hdocs2, hnext2⟩ :=
          uploadFile_created file ws₂ user env (uploadFile file ws₁ user env st).2
            hfind2 hmime
        rw [hresp2] at h2
        have hr₂ := Except.ok.inj h2
        subst hr₂
        refine ⟨?_, ?_, ?_, ?_⟩
        · show ((uploadFile file ws₁ user env st).2).nextId ≠ st.nextId
          omega
        · show (if env.hasQueue then "pending" else "ready") ≠ "duplicate"
          cases env.hasQueue <;> simp
        · have ht1 : ((st.nextId, ws₁, file.name, env.hash file.content) :
              Nat × String × String × String)
              ∈ ((uploadFile file ws₂ user env
                  (uploadFile file ws₁ user env st).2).2).db.documents.map docKey := by
            rw [hdocs2]
            refine List.mem_append_left _ ?_
            rw [hdocs]
            exact List.mem_append_right _ (List.mem_singleton_self _)
          obtain ⟨d₁, hd₁, hk₁⟩ := List.mem_map.mp ht1
          simp only [docKey, Prod.mk.injEq] at hk₁
          exact ⟨d₁, hd₁, hk₁.1, hk₁.2.1, hk₁.2.2.2⟩
        · have ht2 : ((((uploadFile file ws₁ user env st).2).nextId, ws₂,
              file.name, env.hash file.content) : Nat × String × String × String)
              ∈ ((uploadFile file ws₂ user env
                  (uploadFile file ws₁ user env st).2).2).db.documents.map docKey := by
            rw [hdocs2]
            exact List.mem_append_right _ (List.mem_singleton_self _)
          obtain ⟨d₂, hd₂, hk₂⟩ := List.mem_map.mp ht2
          simp only [docKey, Prod.mk.injEq] at hk₂
          exact ⟨d₂, hd₂, hk₂.1, hk₂.2.1, hk₂.2.2.2⟩
    · rw [uploadFile_badMime file ws₁ user env st hfind hmime] at h1
      exact absurd h1 (by simp)


/-- Concrete upload for the dedup witness: a small plain-text file. -/
def w5File : FileUpload :=
  ⟨"a.txt", "hi", 2, "text/plain"⟩

/-- Concrete upload environment: queue bound, identity hash, the
all-success oracle. -/
def w5Env : UploadEnv :=
  ⟨true, fun s => s, wOraOk⟩

/-- Concrete empty initial state for the dedup witness. -/
def w5St : St :=
  ⟨⟨[], [], [], []⟩, [], [], [], 10⟩

/-- Witness for the upload-dedup theorem: the repeat upload into `w1`
answers with the original id 10 and status `duplicate` without a new
row, and the same bytes uploaded into `w2` land as a second document
with the fresh id 11. -/
theorem upload_dedup_witness :
    ((uploadFile w5File "w1" "u1" w5Env (uploadFile w5File "w1" "u1" w5Env w5St).2).1
        = Except.ok ⟨10, "a.txt", "duplicate", 7⟩
      ∧ ((uploadFile w5File "w1" "u1" w5Env
            (uploadFile w5File "w1" "u1" w5Env w5St).2).2).db.documents
          = ((uploadFile w5File "w1" "u1" w5Env w5St).2).db.documents)
    ∧ (∃ d₂ ∈ ((uploadFile w5File "w2" "u1" w5Env
          (uploadFile w5File "w1" "u1" w5Env w5St).2).2).db.documents,
        d₂.id = (11 : Nat) ∧ d₂.workspace_id = "w2"
          ∧ d₂.content_hash = w5Env.hash w5File.content) := by
  have h := upload_dedup w5File "w1" "w2" "u1" w5Env w5St
    ⟨10, "a.txt", "pending", 7⟩ (by rfl)
  have h2 := h.2 ⟨11, "a.txt", "pending", 7⟩ (by decide) (by decide)
    (by intro d hd; simp [w5St] at hd) (by rfl)
  exact ⟨⟨h.1.1, h.1.2⟩, h2.2.2.2⟩


end DocVault
